import Mathlib

/-!
TextEditor (`edit.c`): key decoder, cursor and scroll controller, loader, row renderer,
frame builder.

A shallow embedding of `src/edit.c`.

Modelling conventions
* A byte is a natural number below 256.
* A C `int` is modelled by `Int`.  The development covers the executions in
  which no `int` computation leaves the range of the type (signed overflow has
  no defined behaviour in C).
* Plain `char` has implementation-defined signedness; the conversion from
  `char` to `int` is therefore a parameter (`charSigned`).
* Standard input is a finite list of `read` results.  After the list is
  used up every further `read` returns 0 (no data within the read window).
* Memory allocation is assumed to succeed.
-/

namespace Edit

/-! ## Key codes (`enum controlKey`, `CTRL_KEY`) -/

def ARROW_UP : Int := 1000
def ARROW_DOWN : Int := 1001
def ARROW_RIGHT : Int := 1002
def ARROW_LEFT : Int := 1003
def PAGE_UP : Int := 1004
def PAGE_DOWN : Int := 1005
def HOME_KEY : Int := 1006
def END_KEY : Int := 1007
def DEL_KEY : Int := 1008

/-- The macro `CTRL_KEY(key)`, that is `0x1f & key`. -/
def CTRL_KEY (key : Nat) : Int := ((Nat.land 31 key : Nat) : Int)

/-- The escape character `'\x1b'` as an `int`. -/
def ESC : Int := 27

/-! ## Standard input -/

/-- One call `read(STDIN_FILENO, &c, 1)`: a byte was delivered (return value 1),
no data arrived within the read window (return value 0), or the call failed
(return value -1, with `errno` equal to `EAGAIN` or not). -/
inductive ReadResult where
  | data (b : Nat)
  | zero
  | fail (eagain : Bool)
deriving DecidableEq, Repr

/-- Value of a plain `char` holding byte `b` when converted to `int`. -/
def charToInt (charSigned : Bool) (b : Nat) : Int :=
  if charSigned = true ∧ 128 ≤ b then (b : Int) - 256 else (b : Int)

/-- What a call of `read_key` does: it returns a key code and leaves the rest of
the input unread, or it ends the process through `die_with_error`, or its first
loop never receives a byte. -/
inductive KeyOutcome where
  | key (code : Int) (rest : List ReadResult)
  | died
  | waiting
deriving DecidableEq, Repr

/-- The `switch (seq[1])` under `seq[2] == '~'` (lines 362-374), falling out to
the final `return '\x1b'`. -/
def tildeKey (s1 : Nat) : Int :=
  if s1 = 49 then HOME_KEY
  else if s1 = 51 then DEL_KEY
  else if s1 = 52 then END_KEY
  else if s1 = 53 then PAGE_UP
  else if s1 = 54 then PAGE_DOWN
  else if s1 = 55 then HOME_KEY
  else if s1 = 56 then END_KEY
  else ESC

/-- The `switch (seq[1])` after `'['` for a non-digit (lines 378-386), falling
out to the final `return '\x1b'`. -/
def bracketKey (s1 : Nat) : Int :=
  if s1 = 65 then ARROW_UP
  else if s1 = 66 then ARROW_DOWN
  else if s1 = 67 then ARROW_RIGHT
  else if s1 = 68 then ARROW_LEFT
  else if s1 = 72 then HOME_KEY
  else if s1 = 70 then END_KEY
  else ESC

/-- The `switch (seq[1])` after `'O'` (lines 391-395), falling out to the final
`return '\x1b'`. -/
def oKey (s1 : Nat) : Int :=
  if s1 = 72 then HOME_KEY
  else if s1 = 70 then END_KEY
  else ESC

/-- One follow-up call `read(STDIN_FILENO, &seq[i], 1)`: the byte stored when the
return value is 1 (`none` when it is not), and the input left. -/
def read1 : List ReadResult → Option Nat × List ReadResult
  | [] => (none, [])
  | ReadResult.data b :: rest => (some b, rest)
  | _ :: rest => (none, rest)

/-- The body of `if (c == '\x1b')` in `read_key` (lines 345-398): `inp` is the
input left after the escape byte. -/
def read_escape (inp : List ReadResult) : KeyOutcome :=
  match read1 inp with
  | (none, r0) => KeyOutcome.key ESC r0
  | (some s0, r0) =>
    match read1 r0 with
    | (none, r1) => KeyOutcome.key ESC r1
    | (some s1, r1) =>
      if s0 = 91 then
        if 48 ≤ s1 ∧ s1 ≤ 57 then
          match read1 r1 with
          | (none, r2) => KeyOutcome.key ESC r2
          | (some s2, r2) =>
            if s2 = 126 then KeyOutcome.key (tildeKey s1) r2
            else KeyOutcome.key ESC r2
        else KeyOutcome.key (bracketKey s1) r1
      else if s0 = 79 then KeyOutcome.key (oKey s1) r1
      else KeyOutcome.key ESC r1

/-- The function `read_key` (lines 330-405). -/
def read_key (charSigned : Bool) : List ReadResult → KeyOutcome
  | [] => KeyOutcome.waiting
  | ReadResult.zero :: rest => read_key charSigned rest
  | ReadResult.fail eagain :: rest =>
      if eagain then read_key charSigned rest else KeyOutcome.died
  | ReadResult.data c :: rest =>
      if c = 27 then read_escape rest
      else KeyOutcome.key (charToInt charSigned c) rest

/-! ## Editor state (`struct textRow`, `struct config`) -/

/-- The record `struct textRow`: `chars` is the allocated array the pointer of the
same name refers to. -/
structure textRow where
  size : Int
  chars : List Nat
deriving DecidableEq, Repr

/-- The record `struct config`, without the saved terminal attributes: `row` is
the allocated array of rows the pointer of the same name refers to. -/
structure config where
  cx : Int
  cy : Int
  screenCols : Int
  screenRows : Int
  rowOffset : Int
  colOffset : Int
  rowNum : Int
  row : List textRow
deriving DecidableEq, Repr

/-- The access `E.row[i]`, defined inside the allocated array only. -/
def rowAt (E : config) (i : Int) : Option textRow :=
  if 0 ≤ i then E.row[i.toNat]? else none

/-! ## Cursor movement (`move_cursor`, lines 407-458) -/

/-- The `switch (key)` of `move_cursor` (lines 412-446); `none` when a row outside
the array is read. -/
def move_switch (key : Int) (E : config) : Option config :=
  let row : Option Int := if E.cy ≥ E.rowNum then none else some E.cy
  if key = ARROW_UP then
    some (if E.cy ≠ 0 then { E with cy := E.cy - 1 } else E)
  else if key = ARROW_LEFT then
    if E.cx ≠ 0 then some { E with cx := E.cx - 1 }
    else if E.cy > 0 then
      (rowAt E (E.cy - 1)).map fun r => { E with cy := E.cy - 1, cx := r.size }
    else some E
  else if key = ARROW_DOWN then
    some (if E.cy < E.rowNum then { E with cy := E.cy + 1 } else E)
  else if key = ARROW_RIGHT then
    match row with
    | none => some E
    | some i =>
      (rowAt E i).map fun r =>
        if E.cx < r.size then { E with cx := E.cx + 1 }
        else if E.cx = r.size then { E with cy := E.cy + 1, cx := 0 }
        else E
  else some E

/-- The value `rowLen` of lines 451-452: the size of row `cy`, or 0 when
`cy >= rowNum`; `none` when a row outside the array is read. -/
def rowLen (E : config) : Option Int :=
  if E.cy ≥ E.rowNum then some 0 else (rowAt E E.cy).map fun r => r.size

/-- Lines 451-454 of `move_cursor`: `cx` is cut down to `rowLen`. -/
def clamp_cx (E : config) : Option config :=
  (rowLen E).map fun len => if E.cx > len then { E with cx := len } else E

/-- The function `move_cursor`. -/
def move_cursor (key : Int) (E : config) : Option config :=
  (move_switch key E).bind clamp_cx

/-- Successive calls of `move_cursor`, one per key of the list. -/
def move_cursor_seq : List Int → config → Option config
  | [], E => some E
  | k :: ks, E => (move_cursor k E).bind (move_cursor_seq ks)

/-! ## Scrolling (`scroll`, lines 225-242) -/

/-- The function `scroll`. -/
def scroll (E : config) : config :=
  let E1 := if E.cy < E.rowOffset then { E with rowOffset := E.cy } else E
  let E2 := if E1.cy ≥ E1.rowOffset + E1.screenRows
            then { E1 with rowOffset := E1.cy - E1.screenRows + 1 } else E1
  let E3 := if E2.cx < E2.colOffset then { E2 with colOffset := E2.cx } else E2
  if E3.cx ≥ E3.colOffset + E3.screenCols
  then { E3 with colOffset := E3.cx - E3.screenCols + 1 } else E3

/-! ## Command dispatch (`process_keypress`, lines 460-509) -/

/-- What `process_keypress` does after the key has been read: it returns to the
main loop with a new state, ends the process with `exit(0)`, reads a row outside
the array, or runs the page loop with a countdown that starts at or below 0 and
so cannot reach 0 inside the range of `int`. -/
inductive KeypressOutcome where
  | continues (E : config)
  | exited
  | invalidAccess
  | runaway
deriving DecidableEq, Repr

/-- The loop `while (--times) move_cursor(dir)` for a countdown that performs
`k` iterations. -/
def page_loop (dir : Int) : Nat → config → Option config
  | 0, E => some E
  | k + 1, E => (move_cursor dir E).bind (page_loop dir k)

/-- The `switch (c)` of `process_keypress`, where `c` is the key code returned
by `read_key`.  The `default` branch only prints. -/
def process_keypress (c : Int) (E : config) : KeypressOutcome :=
  if c = CTRL_KEY 113 then KeypressOutcome.exited
  else if c = HOME_KEY then KeypressOutcome.continues { E with cx := 0 }
  else if c = END_KEY then KeypressOutcome.continues { E with cx := E.screenCols - 1 }
  else if c = PAGE_DOWN ∨ c = PAGE_UP then
    let times := E.screenRows
    if 1 ≤ times then
      match page_loop (if c = PAGE_DOWN then ARROW_DOWN else ARROW_UP)
              (times - 1).toNat E with
      | some E1 => KeypressOutcome.continues E1
      | none => KeypressOutcome.invalidAccess
    else KeypressOutcome.runaway
  else if c = ARROW_UP ∨ c = ARROW_DOWN ∨ c = ARROW_LEFT ∨ c = ARROW_RIGHT then
    match move_cursor c E with
    | some E1 => KeypressOutcome.continues E1
    | none => KeypressOutcome.invalidAccess
  else KeypressOutcome.continues E

/-- Successive calls of `process_keypress`, one per key code of the list, as
made by the main loop; `none` as soon as a call does not return. -/
def process_keys : List Int → config → Option config
  | [], E => some E
  | c :: cs, E =>
    match process_keypress c E with
    | KeypressOutcome.continues E1 => process_keys cs E1
    | _ => none

/-- The state left by `init` (lines 171-185) for a window of the given size. -/
def init (screenRows screenCols : Int) : config :=
  { cx := 0, cy := 0, screenCols := screenCols, screenRows := screenRows,
    rowOffset := 0, colOffset := 0, rowNum := 0, row := [] }

/-- The buffer invariant set up by `init` and kept by `append_row`: `rowNum` is
the number of rows of the array and every row has a size of at least 0. -/
def bufferOk (E : config) : Prop :=
  E.rowNum = (E.row.length : Int) ∧ ∀ r ∈ E.row, 0 ≤ r.size

instance (E : config) : Decidable (bufferOk E) := by
  unfold bufferOk
  infer_instance

/-! ## Loading a file (`append_row`, `open_editor`, lines 187-223) -/

/-- The record `struct vector`: the list holds the `len` bytes that `v` points
to. -/
abbrev vector := List Nat

/-- A string literal in memory: its bytes and the terminating 0. -/
def cstr (bytes : List Nat) : List Nat := bytes ++ [0]

/-- The function `strlen`: the number of bytes before the first 0. -/
def strlen (s : List Nat) : Nat := (s.takeWhile fun b => b != 0).length

/-- The function `vector_append`: `s` lists the bytes that can be read from the
pointer `s` on; `none` when `length` is negative or more than that. -/
def vector_append (vec : vector) (s : List Nat) (length : Int) : Option vector :=
  if 0 ≤ length ∧ length ≤ (s.length : Int) then some (vec ++ s.take length.toNat)
  else none

/-- The pointer `&r.chars[off]`: the bytes that can be read from it on; `none`
when it points before the array. -/
def charsFrom (r : textRow) (off : Int) : Option (List Nat) :=
  if 0 ≤ off then some (r.chars.drop off.toNat) else none

/-- The array `char welcome[80] = "KiLo Editor -- version 0.0.1"` of line 256:
the 28 bytes of the text and 52 bytes 0. -/
def welcome : List Nat :=
  [75, 105, 76, 111, 32, 69, 100, 105, 116, 111, 114, 32, 45, 45, 32,
   118, 101, 114, 115, 105, 111, 110, 32, 48, 46, 48, 46, 49] ++ List.replicate 52 0

/-- The loop `while (padding--) vector_append(vec, " ", 1)` for a counter that
performs `k` iterations. -/
def pad_loop : Nat → vector → Option vector
  | 0, vec => some vec
  | k + 1, vec => (vector_append vec (cstr [32]) 1).bind (pad_loop k)

/-- The welcome branch of `draw_rows` (lines 256-268); `none` also when the
padding counter is negative, so that the loop cannot end inside the range of
`int`. -/
def draw_welcome (E : config) (vec : vector) : Option vector :=
  let welcomeLen0 : Int := (strlen welcome : Int)
  let welcomeLen := if welcomeLen0 > E.screenCols then E.screenCols else welcomeLen0
  let padding := (E.screenCols - welcomeLen).tdiv 2
  let tilde : Option (vector × Int) :=
    if padding ≠ 0 then (vector_append vec (cstr [126]) 1).map fun v => (v, padding - 1)
    else some (vec, padding)
  tilde.bind fun vp =>
    if 0 ≤ vp.2 then
      (pad_loop vp.2.toNat vp.1).bind fun v => vector_append v welcome welcomeLen
    else none

/-- The body of the `for` loop of `draw_rows` for the window row `y`
(lines 251-288). -/
def draw_row (E : config) (y : Int) (vec : vector) : Option vector :=
  let fileRow := y + E.rowOffset
  let text : Option vector :=
    if fileRow ≥ E.rowNum then
      if E.rowNum = 0 ∧ y = E.screenRows.tdiv 3 then draw_welcome E vec
      else vector_append vec (cstr [126]) 1
    else
      (rowAt E fileRow).bind fun r =>
        let len0 := r.size - E.colOffset
        let len1 := if len0 < 0 then 0 else len0
        let len := if len1 > E.screenCols then E.screenCols else len1
        (charsFrom r E.colOffset).bind fun s => vector_append vec s len
  text.bind fun v1 =>
    (vector_append v1 (cstr [27, 91, 75]) 3).bind fun v2 =>
      if y < E.screenRows - 1 then vector_append v2 (cstr [13, 10]) 2 else some v2

/-- The `for` loop of `draw_rows` with `k` iterations left, the next one for the
window row `y`. -/
def draw_rows_from (E : config) : Nat → Int → vector → Option vector
  | 0, _, vec => some vec
  | k + 1, y, vec => (draw_row E y vec).bind (draw_rows_from E k (y + 1))

/-- The function `draw_rows`: the loop runs for `y = 0, ..., screenRows - 1`. -/
def draw_rows (E : config) (vec : vector) : Option vector :=
  draw_rows_from E E.screenRows.toNat 0 vec

/-- Specification side of rendering: the welcome row for a window of
`screenCols` columns.  With `p = (screenCols - bannerLen) / 2`, where `bannerLen`
is the smaller of 28 and `screenCols`, the row is the truncated banner alone when
`p = 0`, and `'~'`, `p - 1` spaces and the banner when `p ≥ 1`. -/
def spec_banner_row (screenCols : Int) : List Nat :=
  let p := (screenCols - min 28 screenCols) / 2
  if p = 0 then welcome.take (min 28 screenCols).toNat
  else [126] ++ List.replicate (p - 1).toNat 32 ++ welcome.take 28

/-- Specification side of rendering: the bytes of window row `y` for an empty
buffer: the welcome row at `y = screenRows / 3` and a lone `'~'` elsewhere, then
`ESC [ K`, then CR LF except on the last row. -/
def spec_empty_row (E : config) (y : Nat) : List Nat :=
  (if (y : Int) = E.screenRows / 3 then spec_banner_row E.screenCols else [126])
    ++ [27, 91, 75] ++ (if (y : Int) < E.screenRows - 1 then [13, 10] else [])

/-! ## Building and writing a frame (`refresh_screen`, lines 293-327) -/

/-- The decimal digits of `n`, most significant first, put in front of `acc`;
the first argument bounds the number of digits. -/
def dec_digits : Nat → Nat → List Nat → List Nat
  | 0, _, acc => acc
  | f + 1, n, acc =>
    if n < 10 then (48 + n) :: acc else dec_digits f (n / 10) ((48 + n % 10) :: acc)

/-- The conversion `%d` of `snprintf`: a `'-'` for a negative value, then the
decimal digits. -/
def fmt_d (i : Int) : List Nat :=
  if i < 0 then 45 :: dec_digits (i.natAbs + 1) i.natAbs []
  else dec_digits (i.toNat + 1) i.toNat []

/-- The call `snprintf(buf, sizeof(buf), "\x1b[%d;%dH", a, b)` of line 317: the
content of the 32-byte array `buf` up to its terminating 0, that is at most 31
bytes of the formatted text. -/
def snprintf_cursor (a b : Int) : List Nat :=
  cstr (([27, 91] ++ fmt_d a ++ [59] ++ fmt_d b ++ [72]).take 31)

/-- Lines 295-321 of `refresh_screen`: the state after `scroll` and the frame
buffer handed to `write`; `none` when a row or string is read outside its
array. -/
def refresh_frame (E : config) : Option (config × vector) :=
  let E1 := scroll E
  (vector_append [] (cstr [27, 91, 50, 53, 108]) 6).bind fun v1 =>
    (vector_append v1 (cstr [27, 91, 72]) 3).bind fun v2 =>
      (draw_rows E1 v2).bind fun v3 =>
        let buf := snprintf_cursor ((E1.cy - E1.rowOffset) + 1) ((E1.cx - E1.colOffset) + 1)
        (vector_append v3 buf (strlen buf)).bind fun v4 =>
          (vector_append v4 (cstr [27, 91, 63, 50, 53, 104]) 6).map fun v5 => (E1, v5)

/-- What a call of `refresh_screen` does: it returns with the scrolled state
after handing the frame to `write`, or it ends the process through
`die_with_error`, or it reads outside an array while building the frame. -/
inductive RefreshOutcome where
  | returned (E : config) (frame : vector)
  | died
  | invalidAccess
deriving DecidableEq, Repr

/-- The function `refresh_screen`; `w` is the value returned by the single call
`write(STDOUT_FILENO, vec.v, vec.len)`: -1 on failure, otherwise the number of
bytes written. -/
def refresh_screen (w : Int) (E : config) : RefreshOutcome :=
  match refresh_frame E with
  | none => RefreshOutcome.invalidAccess
  | some (E1, vec) => if w < 0 then RefreshOutcome.died else RefreshOutcome.returned E1 vec

/-- The text invariant kept by `append_row`: the array `chars` of every row
holds `size` bytes of text and the terminating 0. -/
def textOk (E : config) : Prop :=
  ∀ r ∈ E.row, (r.chars.length : Int) = r.size + 1

instance (E : config) : Decidable (textOk E) := by
  unfold textOk
  infer_instance

/-- Specification side of rendering: the text of window row `y` for a buffer
with lines: the bytes of line `y + rowOffset` at the positions from `colOffset`
up to `colOffset + screenCols`, cut at the end of the line, or a lone `'~'`
when there is no such line. -/
def spec_text_row (E : config) (y : Nat) : List Nat :=
  if (y : Int) + E.rowOffset < E.rowNum then
    match rowAt E ((y : Int) + E.rowOffset) with
    | some r => ((r.chars.take r.size.toNat).drop E.colOffset.toNat).take E.screenCols.toNat
    | none => []
  else [126]

/-- Specification side of rendering: the bytes of window row `y` for a buffer
with lines: the text, then `ESC [ K`, then CR LF except on the last row. -/
def spec_draw_row (E : config) (y : Nat) : List Nat :=
  spec_text_row E y ++ [27, 91, 75] ++ (if (y : Int) < E.screenRows - 1 then [13, 10] else [])

/-- A sample state: the two lines "ab" and "" in a 24x80 window, cursor at the
end of the first line. -/
def sampleState : config :=
  { cx := 2, cy := 0, screenCols := 80, screenRows := 24, rowOffset := 0, colOffset := 0,
    rowNum := 2, row := [{ size := 2, chars := [97, 98, 0] }, { size := 0, chars := [0] }] }

/-- A second sample state: thirty empty lines in a 24x80 window, cursor on
line 5. -/
def longState : config :=
  { cx := 0, cy := 5, screenCols := 80, screenRows := 24, rowOffset := 0, colOffset := 0,
    rowNum := 30, row := List.replicate 30 { size := 0, chars := [0] } }

/-! ## Key decoder: theorems -/

open ReadResult KeyOutcome

/-- Reads that return 0 before the first delivered byte are skipped. -/
theorem read_key_skip_zero (cs : Bool) (n : Nat) (l : List ReadResult) :
    read_key cs (List.replicate n zero ++ l) = read_key cs l := by
  induction n with
  | zero => simp
  | succ k ih => simpa [List.replicate_succ, read_key] using ih

/-- Decoding of two delivered bytes after the escape byte, when they are not
`[` followed by a digit: no further read is made. -/
theorem read_escape_pair (s0 s1 : Nat) (rest : List ReadResult)
    (h : ¬ (s0 = 91 ∧ 48 ≤ s1 ∧ s1 ≤ 57)) :
    read_escape (data s0 :: data s1 :: rest)
      = key (if s0 = 91 then bracketKey s1 else if s0 = 79 then oKey s1 else ESC) rest := by
  by_cases h91 : s0 = 91
  · have hd : ¬ (48 ≤ s1 ∧ s1 ≤ 57) := fun hd => h ⟨h91, hd⟩
    simp [read_escape, read1, h91, hd]
  · by_cases h79 : s0 = 79 <;> simp [read_escape, read1, h91, h79]

/-- C1: after a delivered escape byte with two more bytes available, `ESC [` then
A, B, C, D, H, F gives the four arrows, HOME and END; `ESC O` then H, F gives HOME
and END; every other pair that is not `[` followed by a digit gives plain ESC.
Exactly the three bytes are consumed. -/
theorem read_key_three_byte_sequences (cs : Bool) (n : Nat) (rest : List ReadResult) :
    read_key cs (List.replicate n zero ++ data 27 :: data 91 :: data 65 :: rest)
        = key ARROW_UP rest ∧
    read_key cs (List.replicate n zero ++ data 27 :: data 91 :: data 66 :: rest)
        = key ARROW_DOWN rest ∧
    read_key cs (List.replicate n zero ++ data 27 :: data 91 :: data 67 :: rest)
        = key ARROW_RIGHT rest ∧
    read_key cs (List.replicate n zero ++ data 27 :: data 91 :: data 68 :: rest)
        = key ARROW_LEFT rest ∧
    read_key cs (List.replicate n zero ++ data 27 :: data 91 :: data 72 :: rest)
        = key HOME_KEY rest ∧
    read_key cs (List.replicate n zero ++ data 27 :: data 91 :: data 70 :: rest)
        = key END_KEY rest ∧
    read_key cs (List.replicate n zero ++ data 27 :: data 79 :: data 72 :: rest)
        = key HOME_KEY rest ∧
    read_key cs (List.replicate n zero ++ data 27 :: data 79 :: data 70 :: rest)
        = key END_KEY rest ∧
    (∀ s0 s1 : Nat, ¬ (s0 = 91 ∧ 48 ≤ s1 ∧ s1 ≤ 57) →
      ¬ (s0 = 91 ∧ (s1 = 65 ∨ s1 = 66 ∨ s1 = 67 ∨ s1 = 68 ∨ s1 = 72 ∨ s1 = 70)) →
      ¬ (s0 = 79 ∧ (s1 = 72 ∨ s1 = 70)) →
      read_key cs (List.replicate n zero ++ data 27 :: data s0 :: data s1 :: rest)
        = key 27 rest) := by
  simp only [read_key_skip_zero]
  refine ⟨?_, ?_, ?_, ?_, ?_, ?_, ?_, ?_, ?_⟩
  · simp [read_key, read_escape, read1, bracketKey]
  · simp [read_key, read_escape, read1, bracketKey]
  · simp [read_key, read_escape, read1, bracketKey]
  · simp [read_key, read_escape, read1, bracketKey]
  · simp [read_key, read_escape, read1, bracketKey]
  · simp [read_key, read_escape, read1, bracketKey]
  · simp [read_key, read_escape, read1, oKey]
  · simp [read_key, read_escape, read1, oKey]
  · intro s0 s1 h1 h2 h3
    rw [read_key, if_pos rfl, read_escape_pair s0 s1 rest h1]
    by_cases h91 : s0 = 91
    · have : s1 ≠ 65 ∧ s1 ≠ 66 ∧ s1 ≠ 67 ∧ s1 ≠ 68 ∧ s1 ≠ 72 ∧ s1 ≠ 70 := by
        refine ⟨?_, ?_, ?_, ?_, ?_, ?_⟩ <;> intro h <;> exact h2 ⟨h91, by simp [h]⟩
      simp [h91, bracketKey, ESC, this]
    · by_cases h79 : s0 = 79
      · have : s1 ≠ 72 ∧ s1 ≠ 70 := by
          refine ⟨?_, ?_⟩ <;> intro h <;> exact h3 ⟨h79, by simp [h]⟩
        simp [h79, oKey, ESC, this]
      · simp [h91, h79, ESC]

/-- Witness for C1: `ESC [ Z` after one empty read decodes to plain ESC. -/
theorem read_key_three_byte_sequences_witness :
    ¬ ((91 : Nat) = 91 ∧ 48 ≤ (90 : Nat) ∧ (90 : Nat) ≤ 57) ∧
    read_key true (List.replicate 1 zero ++ data 27 :: data 91 :: data 90 :: [data 7])
      = key 27 [data 7] :=
  ⟨by decide,
   (read_key_three_byte_sequences true 1 [data 7]).2.2.2.2.2.2.2.2 91 90
     (by decide) (by decide) (by decide)⟩

/-- C2: on `ESC [ d t` with `d` a digit, `read_key` returns HOME for `1~` and `7~`,
DEL for `3~`, END for `4~` and `8~`, PAGE_UP for `5~`, PAGE_DOWN for `6~`, and
plain ESC otherwise; the four bytes are consumed.  In particular `1B 5B 35 7E`
decodes to PAGE_UP. -/
theorem read_key_digit_sequences (cs : Bool) (n : Nat) (rest : List ReadResult)
    (d t : Nat) (hd : 48 ≤ d ∧ d ≤ 57) :
    read_key cs (List.replicate n zero ++ data 27 :: data 91 :: data d :: data t :: rest)
      = key (if t = 126 then
               (if d = 49 ∨ d = 55 then HOME_KEY
                else if d = 51 then DEL_KEY
                else if d = 52 ∨ d = 56 then END_KEY
                else if d = 53 then PAGE_UP
                else if d = 54 then PAGE_DOWN
                else 27)
             else 27) rest ∧
    read_key cs (List.replicate n zero ++ data 27 :: data 91 :: data 53 :: data 126 :: rest)
      = key PAGE_UP rest := by
  rw [read_key_skip_zero, read_key_skip_zero]
  refine ⟨?_, by simp [read_key, read_escape, read1, tildeKey]⟩
  by_cases ht : t = 126
  · simp only [read_key, read_escape, read1, if_true, hd, and_self, ht, tildeKey]
    by_cases h49 : d = 49
    · simp [h49]
    by_cases h51 : d = 51
    · simp [h51]
    by_cases h52 : d = 52
    · simp [h52]
    by_cases h53 : d = 53
    · simp [h53]
    by_cases h54 : d = 54
    · simp [h54]
    by_cases h55 : d = 55
    · simp [h55]
    by_cases h56 : d = 56
    · simp [h56]
    simp [h49, h51, h52, h53, h54, h55, h56, ESC]
  · simp [read_key, read_escape, read1, hd, ht, ESC]

/-- Witness for C2: `ESC [ 3 ~` decodes to DEL. -/
theorem read_key_digit_sequences_witness :
    (48 ≤ (51 : Nat) ∧ (51 : Nat) ≤ 57) ∧
    read_key false (List.replicate 0 zero ++ data 27 :: data 91 :: data 51 :: data 126 :: [])
      = key DEL_KEY [] :=
  ⟨by decide, (read_key_digit_sequences false 0 [] 51 126 (by decide)).1⟩

/-- C3: once the escape byte has been delivered, a follow-up read that returns no
data (the one for the 2nd byte, for the 3rd byte, or for the 4th byte after
`ESC [ digit`) makes `read_key` return plain ESC with the input after that read
left untouched; so does the end of the input, and a lone escape byte gives plain
ESC. -/
theorem read_key_incomplete_escape (cs : Bool) (n : Nat) (rest : List ReadResult) :
    read_key cs (List.replicate n zero ++ data 27 :: zero :: rest) = key 27 rest ∧
    (∀ s0 : Nat,
      read_key cs (List.replicate n zero ++ data 27 :: data s0 :: zero :: rest)
        = key 27 rest) ∧
    (∀ d : Nat, 48 ≤ d ∧ d ≤ 57 →
      read_key cs (List.replicate n zero ++ data 27 :: data 91 :: data d :: zero :: rest)
        = key 27 rest) ∧
    read_key cs (List.replicate n zero ++ [data 27]) = key 27 [] ∧
    (∀ s0 : Nat,
      read_key cs (List.replicate n zero ++ [data 27, data s0]) = key 27 []) ∧
    (∀ d : Nat, 48 ≤ d ∧ d ≤ 57 →
      read_key cs (List.replicate n zero ++ [data 27, data 91, data d]) = key 27 []) := by
  simp only [read_key_skip_zero]
  refine ⟨?_, ?_, ?_, ?_, ?_, ?_⟩
  · simp [read_key, read_escape, read1, ESC]
  · intro s0
    simp [read_key, read_escape, read1, ESC]
  · intro d hd
    simp [read_key, read_escape, read1, ESC, hd]
  · simp [read_key, read_escape, read1, ESC]
  · intro s0
    simp [read_key, read_escape, read1, ESC]
  · intro d hd
    simp [read_key, read_escape, read1, ESC, hd]

/-- Witness for C3: `ESC [ 5` followed by an empty read gives plain ESC and
leaves the later input unread. -/
theorem read_key_incomplete_escape_witness :
    (48 ≤ (53 : Nat) ∧ (53 : Nat) ≤ 57) ∧
    read_key true (List.replicate 2 zero ++
        data 27 :: data 91 :: data 53 :: zero :: [data 126])
      = key 27 [data 126] :=
  ⟨by decide, (read_key_incomplete_escape true 2 [data 126]).2.2.1 53 (by decide)⟩

/-- C4, as stated, fails where plain `char` is signed: the delivered byte 0x80
is returned as the key code -128, not 128. -/
theorem read_key_high_byte_signed :
    read_key true [zero, data 128] = key (-128) [] ∧
    read_key true [zero, data 128] ≠ key 128 [] := by
  decide

/-- C4, amended: after any number of empty reads, a delivered byte `b` other
than 0x1B is returned as the value of the `char` holding it, consuming that byte
only: `b` itself when `b < 128` or plain `char` is unsigned, `b - 256` when
`128 ≤ b` and plain `char` is signed.  The key code lies in -128..255 and is none
of the nine named codes 1000..1008. -/
theorem read_key_plain_byte (cs : Bool) (n : Nat) (rest : List ReadResult) (b : Nat)
    (hb : b < 256) (h27 : b ≠ 27) :
    read_key cs (List.replicate n zero ++ data b :: rest) = key (charToInt cs b) rest ∧
    (b < 128 ∨ cs = false → charToInt cs b = (b : Int)) ∧
    (128 ≤ b ∧ cs = true → charToInt cs b = (b : Int) - 256) ∧
    -128 ≤ charToInt cs b ∧ charToInt cs b ≤ 255 ∧
    ¬ (ARROW_UP ≤ charToInt cs b ∧ charToInt cs b ≤ DEL_KEY) := by
  rw [read_key_skip_zero]
  refine ⟨by simp [read_key, h27], ?_, ?_, ?_, ?_, ?_⟩
  · intro h
    unfold charToInt
    split_ifs with hc
    · rcases h with h | h
      · omega
      · rw [h] at hc
        exact absurd hc.1 (by decide)
    · rfl
  · intro h
    unfold charToInt
    rw [if_pos ⟨h.2, h.1⟩]
  · unfold charToInt
    split_ifs with hc <;> omega
  · unfold charToInt
    split_ifs with hc <;> omega
  · unfold charToInt ARROW_UP DEL_KEY
    split_ifs with hc <;> omega

/-- Witness for C4 (amended): byte 0xC3 with signed `char` gives -61. -/
theorem read_key_plain_byte_witness :
    ((195 : Nat) < 256 ∧ (195 : Nat) ≠ 27) ∧
    read_key true (List.replicate 3 zero ++ data 195 :: [data 169])
      = key (charToInt true 195) [data 169] :=
  ⟨by decide, (read_key_plain_byte true 3 [data 169] 195 (by decide) (by decide)).1⟩

/-! ## Cursor movement: theorems -/

/-- Inside a well-formed buffer every row index below `rowNum` is a row of the
array. -/
theorem rowAt_of_lt (E : config) (hb : bufferOk E) (i : Int) (h0 : 0 ≤ i)
    (h1 : i < E.rowNum) : ∃ r, rowAt E i = some r ∧ r ∈ E.row ∧ 0 ≤ r.size := by
  have hlen : i.toNat < E.row.length := by
    have := hb.1
    omega
  refine ⟨E.row[i.toNat], ?_, List.getElem_mem hlen, hb.2 _ (List.getElem_mem hlen)⟩
  simp [rowAt, h0, List.getElem?_eq_getElem hlen]

/-- The buffer invariant only depends on `rowNum` and `row`. -/
theorem bufferOk_of_eq (E E1 : config) (hb : bufferOk E) (hr : E1.row = E.row)
    (hn : E1.rowNum = E.rowNum) : bufferOk E1 := by
  unfold bufferOk at *
  rw [hr, hn]
  exact hb

/-- The value `rowLen` only depends on `cy`, `rowNum` and `row`. -/
theorem rowLen_congr (E E1 : config) (hr : E1.row = E.row) (hn : E1.rowNum = E.rowNum)
    (hc : E1.cy = E.cy) : rowLen E1 = rowLen E := by
  simp [rowLen, rowAt, hr, hn, hc]

/-- With the cursor row in `0..rowNum`, `rowLen` is defined and not negative. -/
theorem rowLen_defined (E : config) (hb : bufferOk E) (hcy : 0 ≤ E.cy ∧ E.cy ≤ E.rowNum) :
    ∃ L, rowLen E = some L ∧ 0 ≤ L := by
  by_cases h : E.cy ≥ E.rowNum
  · exact ⟨0, by simp [rowLen, h], le_refl 0⟩
  · obtain ⟨r, hr, _, hs⟩ := rowAt_of_lt E hb E.cy hcy.1 (by omega)
    exact ⟨r.size, by simp [rowLen, h, hr], hs⟩

/-- The final clamp of `move_cursor` sets `cx` to the smaller of `cx` and
`rowLen` and changes nothing else. -/
theorem clamp_cx_spec (E : config) (hb : bufferOk E) (hcy : 0 ≤ E.cy ∧ E.cy ≤ E.rowNum) :
    ∃ L, rowLen E = some L ∧ 0 ≤ L ∧ clamp_cx E = some { E with cx := min E.cx L } := by
  obtain ⟨L, hL, h0⟩ := rowLen_defined E hb hcy
  refine ⟨L, hL, h0, ?_⟩
  simp only [clamp_cx, hL, Option.map_some']
  by_cases h : E.cx > L
  · rw [if_pos h, min_eq_right (le_of_lt h)]
  · rw [if_neg h, min_eq_left (not_lt.mp h)]

/-- The `switch` of `move_cursor` reads rows inside the array only, changes `cx`
and `cy` only, and keeps `cy` in `0..rowNum` and `cx` at or above 0. -/
theorem move_switch_spec (key : Int) (E : config) (hb : bufferOk E)
    (hcy : 0 ≤ E.cy ∧ E.cy ≤ E.rowNum) :
    ∃ E1, move_switch key E = some E1 ∧ E1 = { E with cx := E1.cx, cy := E1.cy } ∧
      0 ≤ E1.cy ∧ E1.cy ≤ E.rowNum ∧ (0 ≤ E.cx → 0 ≤ E1.cx) := by
  unfold move_switch
  by_cases hU : key = ARROW_UP
  · rw [if_pos hU]
    by_cases h0 : E.cy ≠ 0
    · exact ⟨{ E with cy := E.cy - 1 }, by rw [if_pos h0], rfl, by simp; omega,
        by simp; omega, fun h => h⟩
    · exact ⟨E, by rw [if_neg h0], rfl, hcy.1, hcy.2, fun h => h⟩
  rw [if_neg hU]
  by_cases hL : key = ARROW_LEFT
  · rw [if_pos hL]
    by_cases hx : E.cx ≠ 0
    · exact ⟨{ E with cx := E.cx - 1 }, by rw [if_pos hx], rfl, hcy.1, hcy.2,
        fun h => by simp; omega⟩
    · rw [if_neg hx]
      by_cases hy : E.cy > 0
      · obtain ⟨r, hr, _, hs⟩ := rowAt_of_lt E hb (E.cy - 1) (by omega) (by omega)
        exact ⟨{ E with cy := E.cy - 1, cx := r.size }, by rw [if_pos hy, hr]; rfl, rfl,
          by simp; omega, by simp; omega, fun _ => hs⟩
      · exact ⟨E, by rw [if_neg hy], rfl, hcy.1, hcy.2, fun h => h⟩
  rw [if_neg hL]
  by_cases hD : key = ARROW_DOWN
  · rw [if_pos hD]
    by_cases h0 : E.cy < E.rowNum
    · exact ⟨{ E with cy := E.cy + 1 }, by rw [if_pos h0], rfl, by simp; omega,
        by simp; omega, fun h => h⟩
    · exact ⟨E, by rw [if_neg h0], rfl, hcy.1, hcy.2, fun h => h⟩
  rw [if_neg hD]
  by_cases hR : key = ARROW_RIGHT
  · rw [if_pos hR]
    by_cases hn : E.cy ≥ E.rowNum
    · exact ⟨E, by simp [hn], rfl, hcy.1, hcy.2, fun h => h⟩
    · obtain ⟨r, hr, _, hs⟩ := rowAt_of_lt E hb E.cy hcy.1 (by omega)
      simp only [if_neg hn, hr, Option.map_some']
      by_cases h1 : E.cx < r.size
      · exact ⟨{ E with cx := E.cx + 1 }, by rw [if_pos h1], rfl, hcy.1, hcy.2,
          fun h => by simp; omega⟩
      · rw [if_neg h1]
        by_cases h2 : E.cx = r.size
        · exact ⟨{ E with cy := E.cy + 1, cx := 0 }, by rw [if_pos h2], rfl,
            by simp; omega, by simp; omega, fun _ => le_refl 0⟩
        · exact ⟨E, by rw [if_neg h2], rfl, hcy.1, hcy.2, fun h => h⟩
  · rw [if_neg hR]
    exact ⟨E, rfl, rfl, hcy.1, hcy.2, fun h => h⟩

/-- One call of `move_cursor`, for any key, from a state with `cy` in `0..rowNum`:
it reads rows inside the array only, changes `cx` and `cy` only, keeps `cy` in
`0..rowNum`, leaves `cx ≤ rowLen`, and keeps `cx` at or above 0. -/
theorem move_cursor_spec (key : Int) (E : config) (hb : bufferOk E)
    (hcy : 0 ≤ E.cy ∧ E.cy ≤ E.rowNum) :
    ∃ E1 L, move_cursor key E = some E1 ∧ E1 = { E with cx := E1.cx, cy := E1.cy } ∧
      0 ≤ E1.cy ∧ E1.cy ≤ E.rowNum ∧ rowLen E1 = some L ∧ 0 ≤ L ∧ E1.cx ≤ L ∧
      (0 ≤ E.cx → 0 ≤ E1.cx) := by
  obtain ⟨E1, h1, hframe, hy0, hy1, hx⟩ := move_switch_spec key E hb hcy
  have hrow : E1.row = E.row := by rw [hframe]
  have hnum : E1.rowNum = E.rowNum := by rw [hframe]
  have hb1 : bufferOk E1 := bufferOk_of_eq E E1 hb hrow hnum
  obtain ⟨L, hL, hL0, hc⟩ := clamp_cx_spec E1 hb1 ⟨hy0, by rw [hnum]; exact hy1⟩
  refine ⟨{ E1 with cx := min E1.cx L }, L, ?_, ?_, hy0, hy1, ?_, hL0, ?_, ?_⟩
  · simp [move_cursor, h1, hc]
  · rw [hframe]
  · rw [← hL]
    exact rowLen_congr E1 _ rfl rfl rfl
  · exact min_le_right _ _
  · intro h
    exact le_min (hx h) hL0

/-- A run of `move_cursor` calls, for any keys, from a state with `cy` in
`0..rowNum` and `cx ≥ 0`: every call returns, the buffer is unchanged, `cy` stays in
`0..rowNum`, `cx` stays at or above 0, and `cx ≤ rowLen` holds at the end if it
held at the start or at least one call was made. -/
theorem move_cursor_seq_spec (keys : List Int) :
    ∀ E : config, bufferOk E → 0 ≤ E.cy ∧ E.cy ≤ E.rowNum → 0 ≤ E.cx →
    ∃ E1, move_cursor_seq keys E = some E1 ∧ E1 = { E with cx := E1.cx, cy := E1.cy } ∧
      0 ≤ E1.cy ∧ E1.cy ≤ E.rowNum ∧ 0 ≤ E1.cx ∧
      ((keys ≠ [] ∨ ∃ L, rowLen E = some L ∧ E.cx ≤ L) →
        ∃ L, rowLen E1 = some L ∧ E1.cx ≤ L) := by
  induction keys with
  | nil =>
    intro E _ hcy hcx
    refine ⟨E, rfl, rfl, hcy.1, hcy.2, hcx, ?_⟩
    intro h
    rcases h with h | h
    · exact absurd rfl h
    · exact h
  | cons k ks ih =>
    intro E hb hcy hcx
    obtain ⟨E1, L, h1, hframe, hy0, hy1, hL, _, hxL, hx0⟩ := move_cursor_spec k E hb hcy
    have hrow : E1.row = E.row := by rw [hframe]
    have hnum : E1.rowNum = E.rowNum := by rw [hframe]
    have hb1 : bufferOk E1 := bufferOk_of_eq E E1 hb hrow hnum
    obtain ⟨E2, h2, hframe2, hy20, hy21, hx2, hP⟩ :=
      ih E1 hb1 ⟨hy0, by rw [hnum]; exact hy1⟩ (hx0 hcx)
    refine ⟨E2, ?_, ?_, hy20, by rw [← hnum]; exact hy21, hx2, ?_⟩
    · simp [move_cursor_seq, h1, h2]
    · rw [hframe2, hframe]
    · intro _
      exact hP (Or.inr ⟨L, hL, hxL⟩)

/-- C5: from a state with `0 ≤ cy ≤ rowNum` and `cx ≥ 0` over a buffer whose line
lengths are at least 0, after each move of any sequence of ARROW_LEFT and
ARROW_RIGHT moves, `0 ≤ cx ≤ L`, where `L` is the length of line `cy`, or 0 when
`cy ≥ rowNum`. -/
theorem move_cursor_left_right_bounds (E : config) (keys : List Int)
    (hb : bufferOk E) (hcy : 0 ≤ E.cy ∧ E.cy ≤ E.rowNum) (hcx : 0 ≤ E.cx)
    (_hkeys : ∀ k ∈ keys, k = ARROW_LEFT ∨ k = ARROW_RIGHT)
    (n : Nat) (hn : 1 ≤ n ∧ n ≤ keys.length) :
    ∃ E1 L, move_cursor_seq (keys.take n) E = some E1 ∧ rowLen E1 = some L ∧
      0 ≤ E1.cx ∧ E1.cx ≤ L := by
  have hne : keys.take n ≠ [] := by
    intro h
    have hl := congrArg List.length h
    simp only [List.length_take, List.length_nil] at hl
    omega
  obtain ⟨E1, h1, _, _, _, hx0, hP⟩ := move_cursor_seq_spec (keys.take n) E hb hcy hcx
  obtain ⟨L, hL, hxL⟩ := hP (Or.inl hne)
  exact ⟨E1, L, h1, hL, hx0, hxL⟩

/-- Witness for C5: two moves out of RIGHT, LEFT, RIGHT on the sample state. -/
theorem move_cursor_left_right_bounds_witness :
    bufferOk sampleState ∧ (0 ≤ sampleState.cy ∧ sampleState.cy ≤ sampleState.rowNum) ∧
    0 ≤ sampleState.cx ∧
    ∃ E1 L, move_cursor_seq ([ARROW_RIGHT, ARROW_LEFT, ARROW_RIGHT].take 2) sampleState
        = some E1 ∧ rowLen E1 = some L ∧ 0 ≤ E1.cx ∧ E1.cx ≤ L :=
  ⟨by decide, by decide, by decide,
   move_cursor_left_right_bounds sampleState [ARROW_RIGHT, ARROW_LEFT, ARROW_RIGHT]
     (by decide) (by decide) (by decide) (by decide) 2 (by decide)⟩

/-- C6: with `screenRows ≥ 1` and `screenCols ≥ 1`, after `scroll` the cursor lies
inside the window on both axes. -/
theorem scroll_cursor_in_window (E : config) (hr : 1 ≤ E.screenRows)
    (hc : 1 ≤ E.screenCols) :
    (scroll E).rowOffset ≤ (scroll E).cy ∧
    (scroll E).cy < (scroll E).rowOffset + (scroll E).screenRows ∧
    (scroll E).colOffset ≤ (scroll E).cx ∧
    (scroll E).cx < (scroll E).colOffset + (scroll E).screenCols ∧
    (scroll E).cx = E.cx ∧ (scroll E).cy = E.cy ∧
    (scroll E).screenRows = E.screenRows ∧ (scroll E).screenCols = E.screenCols := by
  unfold scroll
  simp only []
  split_ifs <;> simp_all <;> omega

/-- Witness for C6: a cursor far below and right of the old window. -/
theorem scroll_cursor_in_window_witness :
    (1 ≤ ({ sampleState with cx := 200, cy := 100 } : config).screenRows ∧
     1 ≤ ({ sampleState with cx := 200, cy := 100 } : config).screenCols) ∧
    (scroll { sampleState with cx := 200, cy := 100 }).rowOffset
      ≤ (scroll { sampleState with cx := 200, cy := 100 }).cy :=
  ⟨by decide,
   (scroll_cursor_in_window { sampleState with cx := 200, cy := 100 }
     (by decide) (by decide)).1⟩

/-- C7: ARROW_RIGHT at the end of an existing line `cy` moves to `cy + 1` with
`cx = 0` and changes nothing else, on the last line too (where `cy + 1` is
`rowNum`). -/
theorem move_cursor_right_at_line_end (E : config) (r : textRow) (hb : bufferOk E)
    (hcy : 0 ≤ E.cy ∧ E.cy < E.rowNum) (hr : rowAt E E.cy = some r)
    (hcx : E.cx = r.size) :
    move_cursor ARROW_RIGHT E = some { E with cy := E.cy + 1, cx := 0 } := by
  have hn : ¬ E.cy ≥ E.rowNum := by omega
  have hsw : move_switch ARROW_RIGHT E = some { E with cy := E.cy + 1, cx := 0 } := by
    simp [move_switch, ARROW_RIGHT, ARROW_UP, ARROW_LEFT, ARROW_DOWN, hn, hr, hcx]
  have hb1 : bufferOk { E with cy := E.cy + 1, cx := 0 } :=
    bufferOk_of_eq E _ hb rfl rfl
  obtain ⟨L, _, hL0, hc⟩ := clamp_cx_spec { E with cy := E.cy + 1, cx := 0 } hb1
    ⟨by simp; omega, by simp; omega⟩
  rw [move_cursor, hsw, Option.some_bind, hc]
  simp [hL0]

/-- Witness for C7: the end of the first line of the sample state. -/
theorem move_cursor_right_at_line_end_witness :
    (bufferOk sampleState ∧ rowAt sampleState sampleState.cy
        = some { size := 2, chars := [97, 98, 0] }) ∧
    move_cursor ARROW_RIGHT sampleState
      = some { sampleState with cy := sampleState.cy + 1, cx := 0 } :=
  ⟨by decide,
   move_cursor_right_at_line_end sampleState { size := 2, chars := [97, 98, 0] }
     (by decide) (by decide) (by decide) (by decide)⟩

/-! ## Command dispatch: theorems -/

/-- The page loop is a run of `move_cursor` calls with one and the same key. -/
theorem page_loop_eq_seq (dir : Int) (k : Nat) :
    ∀ E : config, page_loop dir k E = move_cursor_seq (List.replicate k dir) E := by
  induction k with
  | zero => intro E; rfl
  | succ k ih =>
    intro E
    simp only [page_loop, List.replicate_succ, move_cursor_seq]
    cases move_cursor dir E with
    | none => rfl
    | some E1 => exact ih E1

/-- The quit key `CTRL_KEY('q')` is 17. -/
theorem CTRL_KEY_q : CTRL_KEY 113 = 17 := by decide

/-- One navigation command other than END_KEY, from a state with `cy` in
`0..rowNum`, `cx ≥ 0` and `cx ≤ rowLen`: it returns when `screenRows ≥ 1`, and
whenever it returns it has changed `cx` and `cy` only and kept all three
properties. -/
theorem process_keypress_nav_spec (c : Int) (E : config)
    (hc : c = ARROW_UP ∨ c = ARROW_DOWN ∨ c = ARROW_LEFT ∨ c = ARROW_RIGHT ∨
      c = PAGE_UP ∨ c = PAGE_DOWN ∨ c = HOME_KEY)
    (hb : bufferOk E) (hcy : 0 ≤ E.cy ∧ E.cy ≤ E.rowNum) (hcx : 0 ≤ E.cx)
    (hP : ∃ L, rowLen E = some L ∧ E.cx ≤ L) :
    (1 ≤ E.screenRows → ∃ E1, process_keypress c E = KeypressOutcome.continues E1) ∧
    ∀ E1, process_keypress c E = KeypressOutcome.continues E1 →
      E1 = { E with cx := E1.cx, cy := E1.cy } ∧ 0 ≤ E1.cy ∧ E1.cy ≤ E.rowNum ∧
      0 ≤ E1.cx ∧ ∃ L, rowLen E1 = some L ∧ E1.cx ≤ L := by
  have arrow : ∀ k : Int, (k = ARROW_UP ∨ k = ARROW_DOWN ∨ k = ARROW_LEFT ∨ k = ARROW_RIGHT) →
      process_keypress k E = (match move_cursor k E with
        | some E1 => KeypressOutcome.continues E1
        | none => KeypressOutcome.invalidAccess) := by
    intro k hk
    rcases hk with h | h | h | h <;> subst h <;>
      simp [process_keypress, CTRL_KEY_q, ARROW_UP, ARROW_DOWN, ARROW_LEFT, ARROW_RIGHT,
        PAGE_UP, PAGE_DOWN, HOME_KEY, END_KEY]
  have page : ∀ k : Int, (k = PAGE_UP ∨ k = PAGE_DOWN) →
      process_keypress k E = (if 1 ≤ E.screenRows then
        (match move_cursor_seq (List.replicate (E.screenRows - 1).toNat
            (if k = PAGE_DOWN then ARROW_DOWN else ARROW_UP)) E with
          | some E1 => KeypressOutcome.continues E1
          | none => KeypressOutcome.invalidAccess)
        else KeypressOutcome.runaway) := by
    intro k hk
    rcases hk with h | h <;> subst h <;>
      simp [process_keypress, CTRL_KEY_q, page_loop_eq_seq, ARROW_UP, ARROW_DOWN,
        PAGE_UP, PAGE_DOWN, HOME_KEY, END_KEY]
  have home : process_keypress HOME_KEY E = KeypressOutcome.continues { E with cx := 0 } := by
    simp [process_keypress, CTRL_KEY_q, HOME_KEY]
  rcases hc with h | h | h | h | h | h | h
  case inr.inr.inr.inr.inr.inr =>
    subst h
    rw [home]
    refine ⟨fun _ => ⟨_, rfl⟩, ?_⟩
    intro E1 h1
    injection h1 with h1
    subst h1
    obtain ⟨L, hL, hL0⟩ := rowLen_defined E hb hcy
    exact ⟨rfl, hcy.1, hcy.2, le_refl 0,
      ⟨L, by rw [← hL]; exact rowLen_congr E _ rfl rfl rfl, hL0⟩⟩
  case inr.inr.inr.inr.inl | inr.inr.inr.inr.inr.inl =>
    rw [page c (by first | exact Or.inl h | exact Or.inr h)]
    obtain ⟨E2, h2, hframe, hy0, hy1, hx0, hQ⟩ := move_cursor_seq_spec
      (List.replicate (E.screenRows - 1).toNat
        (if c = PAGE_DOWN then ARROW_DOWN else ARROW_UP)) E hb hcy hcx
    rw [h2]
    refine ⟨fun hr => ⟨E2, by rw [if_pos hr]⟩, ?_⟩
    intro E1 h1
    by_cases hr : 1 ≤ E.screenRows
    · rw [if_pos hr] at h1
      injection h1 with h1
      subst h1
      exact ⟨hframe, hy0, hy1, hx0, hQ (Or.inr hP)⟩
    · rw [if_neg hr] at h1
      cases h1
  all_goals
    rw [arrow c (by simp [h])]
    obtain ⟨E2, L, h2, hframe, hy0, hy1, hL, _, hxL, hx0⟩ := move_cursor_spec c E hb hcy
    rw [h2]
    refine ⟨fun _ => ⟨E2, rfl⟩, ?_⟩
    intro E1 h1
    injection h1 with h1
    subst h1
    exact ⟨hframe, hy0, hy1, hx0 hcx, ⟨L, hL, hxL⟩⟩

/-- A run of navigation commands other than END_KEY keeps `cy` in `0..rowNum`,
`cx ≥ 0` and `cx ≤ rowLen`, and every command returns when `screenRows ≥ 1`. -/
theorem process_keys_nav_spec (keys : List Int) :
    ∀ E : config,
    (∀ c ∈ keys, c = ARROW_UP ∨ c = ARROW_DOWN ∨ c = ARROW_LEFT ∨ c = ARROW_RIGHT ∨
      c = PAGE_UP ∨ c = PAGE_DOWN ∨ c = HOME_KEY) →
    bufferOk E → 0 ≤ E.cy ∧ E.cy ≤ E.rowNum → 0 ≤ E.cx →
    (∃ L, rowLen E = some L ∧ E.cx ≤ L) →
    (1 ≤ E.screenRows → ∃ E1, process_keys keys E = some E1) ∧
    ∀ E1, process_keys keys E = some E1 → ∃ L, rowLen E1 = some L ∧ E1.cx ≤ L := by
  induction keys with
  | nil =>
    intro E _ _ _ _ hP
    refine ⟨fun _ => ⟨E, rfl⟩, ?_⟩
    intro E1 h1
    injection h1 with h1
    subst h1
    exact hP
  | cons c cs ih =>
    intro E hkeys hb hcy hcx hP
    obtain ⟨hret, hstep⟩ := process_keypress_nav_spec c E
      (hkeys c (List.mem_cons_self c cs)) hb hcy hcx hP
    have hrest := fun k hk => hkeys k (List.mem_cons_of_mem c hk)
    constructor
    · intro hr
      obtain ⟨E1, h1⟩ := hret hr
      obtain ⟨hframe, hy0, hy1, hx0, hP1⟩ := hstep E1 h1
      have hnum : E1.rowNum = E.rowNum := by rw [hframe]
      have hrows : E1.screenRows = E.screenRows := by rw [hframe]
      obtain ⟨hret2, _⟩ := ih E1 hrest (bufferOk_of_eq E E1 hb (by rw [hframe]) hnum)
        ⟨hy0, by rw [hnum]; exact hy1⟩ hx0 hP1
      obtain ⟨E2, h2⟩ := hret2 (by rw [hrows]; exact hr)
      exact ⟨E2, by simp [process_keys, h1, h2]⟩
    · intro E2 h2
      simp only [process_keys] at h2
      cases h1 : process_keypress c E with
      | continues E1 =>
        rw [h1] at h2
        obtain ⟨hframe, hy0, hy1, hx0, hP1⟩ := hstep E1 h1
        have hnum : E1.rowNum = E.rowNum := by rw [hframe]
        exact (ih E1 hrest (bufferOk_of_eq E E1 hb (by rw [hframe]) hnum)
          ⟨hy0, by rw [hnum]; exact hy1⟩ hx0 hP1).2 E2 h2
      | exited => rw [h1] at h2; cases h2
      | invalidAccess => rw [h1] at h2; cases h2
      | runaway => rw [h1] at h2; cases h2

/-- C8, as stated, fails: in the initial state of an empty buffer in a 24x80
window END_KEY sets `cx` to 79, while the current line length is 0. -/
theorem process_keypress_end_key_past_line :
    process_keys [END_KEY] (init 24 80) = some { init 24 80 with cx := 79 } ∧
    rowLen { init 24 80 with cx := 79 } = some 0 ∧
    ¬ ({ init 24 80 with cx := 79 } : config).cx ≤ 0 := by
  decide

/-! ## Loading a file: theorems -/

/-- An append of `n` bytes, with `n` inside the readable bytes, adds the first
`n` of them. -/
theorem vector_append_ok (vec s : List Nat) (n : Int) (h0 : 0 ≤ n)
    (h1 : n ≤ (s.length : Int)) : vector_append vec s n = some (vec ++ s.take n.toNat) := by
  simp [vector_append, h0, h1]

/-- The padding loop adds one space per iteration. -/
theorem pad_loop_spec (k : Nat) :
    ∀ vec : List Nat, pad_loop k vec = some (vec ++ List.replicate k 32) := by
  induction k with
  | zero => intro vec; simp [pad_loop]
  | succ k ih =>
    intro vec
    rw [pad_loop, vector_append_ok vec (cstr [32]) 1 (by decide) (by decide)]
    simp [ih, cstr, List.replicate_succ]

/-- The banner text has 28 bytes. -/
theorem strlen_welcome : strlen welcome = 28 := by decide

/-- The welcome branch adds the welcome row of the specification. -/
theorem draw_welcome_spec (E : config) (vec : List Nat) (hsc : 1 ≤ E.screenCols) :
    draw_welcome E vec = some (vec ++ spec_banner_row E.screenCols) := by
  unfold draw_welcome spec_banner_row
  simp only [strlen_welcome, Nat.cast_ofNat]
  by_cases hlt : (28 : Int) > E.screenCols
  · have hmin : min (28 : Int) E.screenCols = E.screenCols := min_eq_right (le_of_lt hlt)
    have hw : E.screenCols ≤ ((welcome.length : Nat) : Int) := by
      have : welcome.length = 80 := by decide
      rw [this]
      omega
    simp only [if_pos hlt, hmin, sub_self, Int.zero_tdiv, ne_eq, not_true_eq_false,
      if_false, Option.some_bind, le_refl, if_true, Int.toNat_zero, pad_loop,
      Int.zero_ediv]
    rw [vector_append_ok vec welcome E.screenCols (by omega) hw]
  · have hmin : min (28 : Int) E.screenCols = 28 := min_eq_left (not_lt.mp hlt)
    have hdiv : (E.screenCols - 28).tdiv 2 = (E.screenCols - 28) / 2 :=
      Int.tdiv_eq_ediv (by omega) (by decide)
    simp only [if_neg hlt, hmin, hdiv]
    by_cases hp : (E.screenCols - 28) / 2 = 0
    · simp only [hp, ne_eq, not_true_eq_false, if_false, Option.some_bind, le_refl,
        if_true, Int.toNat_zero, pad_loop]
      rw [vector_append_ok vec welcome 28 (by decide) (by decide)]
    · have hpos : 0 ≤ (E.screenCols - 28) / 2 - 1 := by omega
      simp only [ne_eq, hp, not_false_eq_true, if_true,
        vector_append_ok vec (cstr [126]) 1 (by decide) (by decide), Option.map_some',
        Option.some_bind, hpos, pad_loop_spec]
      rw [vector_append_ok _ welcome 28 (by decide) (by decide)]
      simp [cstr]

/-- For an empty buffer the loop body adds the row of the specification. -/
theorem draw_row_empty (E : config) (y : Nat) (vec : List Nat) (hnum : E.rowNum = 0)
    (hoff : 0 ≤ E.rowOffset) (hsr : 1 ≤ E.screenRows) (hsc : 1 ≤ E.screenCols) :
    draw_row E (y : Int) vec = some (vec ++ spec_empty_row E y) := by
  have hfile : (y : Int) + E.rowOffset ≥ 0 := by omega
  have hdiv : E.screenRows.tdiv 3 = E.screenRows / 3 :=
    Int.tdiv_eq_ediv (by omega) (by decide)
  have hesc : ∀ v : List Nat, vector_append v (cstr [27, 91, 75]) 3 = some (v ++ [27, 91, 75]) :=
    fun v => by rw [vector_append_ok v _ 3 (by decide) (by decide)]; rfl
  have hnl : ∀ v : List Nat, vector_append v (cstr [13, 10]) 2 = some (v ++ [13, 10]) :=
    fun v => by rw [vector_append_ok v _ 2 (by decide) (by decide)]; rfl
  have htilde : vector_append vec (cstr [126]) 1 = some (vec ++ [126]) := by
    rw [vector_append_ok vec _ 1 (by decide) (by decide)]; rfl
  unfold draw_row spec_empty_row
  simp only [hnum, if_pos hfile, true_and, hdiv]
  by_cases hy : (y : Int) = E.screenRows / 3
  · simp only [if_pos hy, draw_welcome_spec E vec hsc, Option.some_bind, hesc]
    by_cases hl : (y : Int) < E.screenRows - 1
    · simp only [if_pos hl, hnl, List.append_assoc]
    · simp only [if_neg hl, List.append_assoc, List.append_nil]
  · simp only [if_neg hy, htilde, Option.some_bind, hesc]
    by_cases hl : (y : Int) < E.screenRows - 1
    · simp only [if_pos hl, hnl, List.append_assoc]
    · simp only [if_neg hl, List.append_assoc, List.append_nil]

/-- For an empty buffer the row loop adds the rows of the specification, one
after the other. -/
theorem draw_rows_from_empty (E : config) (hnum : E.rowNum = 0) (hoff : 0 ≤ E.rowOffset)
    (hsr : 1 ≤ E.screenRows) (hsc : 1 ≤ E.screenCols) (k : Nat) :
    ∀ (y : Nat) (vec : List Nat), draw_rows_from E k (y : Int) vec
      = some (vec ++ (List.range' y k).flatMap (spec_empty_row E)) := by
  induction k with
  | zero => intro y vec; simp [draw_rows_from]
  | succ k ih =>
    intro y vec
    have hcast : ((y : Int) + 1) = ((y + 1 : Nat) : Int) := by simp
    rw [draw_rows_from, draw_row_empty E y vec hnum hoff hsr hsc, Option.some_bind, hcast,
      ih (y + 1), List.range'_succ, List.flatMap_cons, List.append_assoc]

/-- C10, as stated, fails: for an empty buffer in a window of 3 rows and 20
columns the welcome row (row 1) is the first 20 bytes of the banner, with no `'~'`
before it. -/
theorem draw_rows_narrow_window_no_tilde :
    draw_rows (init 3 20) [] = some
      ([126, 27, 91, 75, 13, 10] ++
       [75, 105, 76, 111, 32, 69, 100, 105, 116, 111, 114, 32, 45, 45, 32,
        118, 101, 114, 115, 105] ++ [27, 91, 75, 13, 10] ++
       [126, 27, 91, 75]) ∧
    draw_row (init 3 20) 1 [] = some
      ([75, 105, 76, 111, 32, 69, 100, 105, 116, 111, 114, 32, 45, 45, 32,
        118, 101, 114, 115, 105] ++ [27, 91, 75, 13, 10]) ∧
    (draw_row (init 3 20) 1 []).map List.head? ≠ some (some 126) := by
  decide

/-- C10, amended: for an empty buffer with `rowOffset ≥ 0`, `screenRows ≥ 1` and
`screenCols ≥ 1`, `draw_rows` adds, for `y = 0, ..., screenRows - 1`, the row bytes
followed by `ESC [ K` and, except on the last row, CR LF; the row bytes are a lone
`'~'` except at `y = screenRows / 3`, where they are the welcome banner cut to at
most `screenCols` bytes and starting at column `p = (screenCols - bannerLen) / 2`:
`'~'`, `p - 1` spaces and the banner when `p ≥ 1`, the banner alone, with no `'~'`,
when `p = 0`.  In a 24x80 window the welcome row is row 8: `'~'`, 25 spaces, the 28
bytes of the banner. -/
theorem draw_rows_empty_buffer (E : config) (vec : List Nat) (hnum : E.rowNum = 0)
    (hoff : 0 ≤ E.rowOffset) (hsr : 1 ≤ E.screenRows) (hsc : 1 ≤ E.screenCols) :
    draw_rows E vec
      = some (vec ++ (List.range E.screenRows.toNat).flatMap (spec_empty_row E)) ∧
    (∀ y : Nat, (y : Int) < E.screenRows → (y : Int) ≠ E.screenRows / 3 →
      spec_empty_row E y
        = [126] ++ [27, 91, 75] ++ (if (y : Int) < E.screenRows - 1 then [13, 10] else [])) ∧
    (∀ y : Nat, (y : Int) = E.screenRows / 3 →
      (30 ≤ E.screenCols →
        spec_empty_row E y
          = [126] ++ List.replicate (((E.screenCols - 28) / 2).toNat - 1) 32
            ++ welcome.take 28 ++ [27, 91, 75]
            ++ (if (y : Int) < E.screenRows - 1 then [13, 10] else [])) ∧
      (E.screenCols ≤ 29 →
        spec_empty_row E y
          = welcome.take (min 28 E.screenCols).toNat ++ [27, 91, 75]
            ++ (if (y : Int) < E.screenRows - 1 then [13, 10] else []))) ∧
    spec_empty_row (init 24 80) 8
      = [126] ++ List.replicate 25 32 ++ welcome.take 28 ++ [27, 91, 75] ++ [13, 10] := by
  refine ⟨?_, ?_, ?_, by decide⟩
  · have h := draw_rows_from_empty E hnum hoff hsr hsc E.screenRows.toNat 0 vec
    rw [draw_rows, List.range_eq_range']
    simpa using h
  · intro y _ hy
    simp only [spec_empty_row, if_neg hy]
  · intro y hy
    constructor
    · intro h30
      have hmin : min (28 : Int) E.screenCols = 28 := min_eq_left (by omega)
      have hp : ¬ (E.screenCols - 28) / 2 = 0 := by omega
      have hnat : ((E.screenCols - 28) / 2 - 1).toNat = ((E.screenCols - 28) / 2).toNat - 1 := by
        omega
      simp only [spec_empty_row, if_pos hy, spec_banner_row, hmin, if_neg hp, hnat]
    · intro h29
      have hp : (E.screenCols - min 28 E.screenCols) / 2 = 0 := by
        rcases le_total (28 : Int) E.screenCols with h | h
        · rw [min_eq_left h]; omega
        · rw [min_eq_right h]; omega
      simp only [spec_empty_row, if_pos hy, spec_banner_row, hp, if_true]

/-- Witness for C10 (amended): the empty buffer in a 24x80 window. -/
theorem draw_rows_empty_buffer_witness :
    ((init 24 80).rowNum = 0 ∧ 0 ≤ (init 24 80).rowOffset ∧ 1 ≤ (init 24 80).screenRows ∧
      1 ≤ (init 24 80).screenCols) ∧
    draw_rows (init 24 80) []
      = some ([] ++ (List.range (init 24 80).screenRows.toNat).flatMap
          (spec_empty_row (init 24 80))) :=
  ⟨by decide,
   (draw_rows_empty_buffer (init 24 80) [] (by decide) (by decide) (by decide)
     (by decide)).1⟩

/-! ## Cursor movement: single moves -/

/-- A call of `move_cursor` is its `switch` followed by cutting `cx` down to
`rowLen`. -/
theorem move_cursor_of_switch (key : Int) (E E1 : config) (L : Int)
    (hsw : move_switch key E = some E1) (hL : rowLen E1 = some L) :
    move_cursor key E = some { E1 with cx := min E1.cx L } := by
  simp only [move_cursor, hsw, Option.some_bind, clamp_cx, hL, Option.map_some']
  by_cases h : E1.cx > L
  · rw [if_pos h, min_eq_right (le_of_lt h)]
  · rw [if_neg h, min_eq_left (not_lt.mp h)]

/-- On an existing line `rowLen` is the size of that line. -/
theorem rowLen_of_row (E : config) (r : textRow) (h : E.cy < E.rowNum)
    (hr : rowAt E E.cy = some r) : rowLen E = some r.size := by
  simp [rowLen, not_le.mpr h, hr]

/-- On the row after the last line `rowLen` is 0. -/
theorem rowLen_of_end (E : config) (h : E.cy ≥ E.rowNum) : rowLen E = some 0 := by
  simp [rowLen, h]

/-- C13: with `0 ≤ cy ≤ rowNum`, ARROW_LEFT gives `(cx - 1, cy)` cut down to the
length of line `cy` when `cx > 0`; the end of the line above, `(size of line
cy - 1, cy - 1)`, when `cx = 0` and `cy > 0`, also from the row after the last
line; and leaves `(0, 0)` as it is.  Nothing but `cx` and `cy` changes. -/
theorem arrow_left_result (E : config) (hb : bufferOk E)
    (hcy : 0 ≤ E.cy ∧ E.cy ≤ E.rowNum) :
    (0 < E.cx → ∃ L, rowLen E = some L ∧
        move_cursor ARROW_LEFT E = some { E with cx := min (E.cx - 1) L }) ∧
    (E.cx = 0 → 0 < E.cy → ∃ r, rowAt E (E.cy - 1) = some r ∧
        move_cursor ARROW_LEFT E = some { E with cy := E.cy - 1, cx := r.size }) ∧
    (E.cx = 0 → E.cy = 0 → move_cursor ARROW_LEFT E = some E) := by
  refine ⟨?_, ?_, ?_⟩
  · intro hx
    obtain ⟨L, hL, _⟩ := rowLen_defined E hb hcy
    have hne : E.cx ≠ 0 := by omega
    have hsw : move_switch ARROW_LEFT E = some { E with cx := E.cx - 1 } := by
      simp [move_switch, ARROW_LEFT, ARROW_UP, hne]
    have hL1 : rowLen { E with cx := E.cx - 1 } = some L := by
      rw [← hL]
      exact rowLen_congr E _ rfl rfl rfl
    exact ⟨L, hL, move_cursor_of_switch _ _ _ L hsw hL1⟩
  · intro hx hy
    obtain ⟨r, hr, _, _⟩ := rowAt_of_lt E hb (E.cy - 1) (by omega) (by omega)
    have hsw : move_switch ARROW_LEFT E = some { E with cy := E.cy - 1, cx := r.size } := by
      simp [move_switch, ARROW_LEFT, ARROW_UP, hx, hy, hr]
    have hL1 : rowLen { E with cy := E.cy - 1, cx := r.size } = some r.size :=
      rowLen_of_row _ r (by simp; omega) (by simpa [rowAt] using hr)
    refine ⟨r, hr, ?_⟩
    rw [move_cursor_of_switch _ _ _ r.size hsw hL1]
    simp
  · intro hx hy
    obtain ⟨L, hL, hL0⟩ := rowLen_defined E hb hcy
    have hsw : move_switch ARROW_LEFT E = some E := by
      simp [move_switch, ARROW_LEFT, ARROW_UP, hx, hy]
    rw [move_cursor_of_switch _ _ _ L hsw hL, hx, min_eq_left hL0, ← hx]

/-- Witness for C13: ARROW_LEFT from the end of the first line of the sample
state. -/
theorem arrow_left_result_witness :
    (bufferOk sampleState ∧ 0 < sampleState.cx) ∧
    ∃ L, rowLen sampleState = some L ∧
      move_cursor ARROW_LEFT sampleState
        = some { sampleState with cx := min (sampleState.cx - 1) L } :=
  ⟨by decide, (arrow_left_result sampleState (by decide) (by decide)).1 (by decide)⟩

/-- C14: with `0 ≤ cy ≤ rowNum` and `cx ≥ 0`, ARROW_UP gives `cy - 1` if `cy > 0`
and `cy` otherwise, ARROW_DOWN gives `cy + 1` if `cy < rowNum` and `cy` otherwise,
and in both cases the new `cx` is the smaller of `cx` and the length `L` of the
new line, where `L` is 0 on the row after the last line.  Nothing but `cx` and
`cy` changes. -/
theorem move_cursor_up_down (E : config) (hb : bufferOk E)
    (hcy : 0 ≤ E.cy ∧ E.cy ≤ E.rowNum) (_hcx : 0 ≤ E.cx) :
    (∃ L, rowLen { E with cy := if 0 < E.cy then E.cy - 1 else E.cy } = some L ∧
      move_cursor ARROW_UP E
        = some { E with cy := (if 0 < E.cy then E.cy - 1 else E.cy), cx := min E.cx L }) ∧
    (∃ L, rowLen { E with cy := if E.cy < E.rowNum then E.cy + 1 else E.cy } = some L ∧
      move_cursor ARROW_DOWN E
        = some { E with cy := (if E.cy < E.rowNum then E.cy + 1 else E.cy),
                        cx := min E.cx L }) ∧
    (∀ E1 : config, E1.rowNum ≤ E1.cy → rowLen E1 = some 0) ∧
    (∀ (E1 : config) (r : textRow), E1.cy < E1.rowNum → rowAt E1 E1.cy = some r →
      rowLen E1 = some r.size) := by
  refine ⟨?_, ?_, fun E1 h => rowLen_of_end E1 h, fun E1 r h hr => rowLen_of_row E1 r h hr⟩
  · have hsw : move_switch ARROW_UP E
        = some { E with cy := if 0 < E.cy then E.cy - 1 else E.cy } := by
      by_cases h0 : 0 < E.cy
      · have hne : E.cy ≠ 0 := by omega
        simp [move_switch, hne, h0]
      · have he : E.cy = 0 := by omega
        have hup : move_switch ARROW_UP E
            = some (if E.cy ≠ 0 then { E with cy := E.cy - 1 } else E) := by
          simp [move_switch]
        rw [hup, if_neg (not_not.mpr he), if_neg h0]
    obtain ⟨L, hL, _⟩ := rowLen_defined
      { E with cy := if 0 < E.cy then E.cy - 1 else E.cy }
      (bufferOk_of_eq E _ hb rfl rfl) (by simp only []; split_ifs <;> omega)
    exact ⟨L, hL, move_cursor_of_switch _ _ _ L hsw hL⟩
  · have hsw : move_switch ARROW_DOWN E
        = some { E with cy := if E.cy < E.rowNum then E.cy + 1 else E.cy } := by
      by_cases h0 : E.cy < E.rowNum
      · simp [move_switch, ARROW_DOWN, ARROW_UP, ARROW_LEFT, h0]
      · simp [move_switch, ARROW_DOWN, ARROW_UP, ARROW_LEFT, h0]
    obtain ⟨L, hL, _⟩ := rowLen_defined
      { E with cy := if E.cy < E.rowNum then E.cy + 1 else E.cy }
      (bufferOk_of_eq E _ hb rfl rfl) (by simp only []; split_ifs <;> omega)
    exact ⟨L, hL, move_cursor_of_switch _ _ _ L hsw hL⟩

/-- Witness for C14: ARROW_DOWN from the first line of the sample state. -/
theorem move_cursor_up_down_witness :
    (bufferOk sampleState ∧ 0 ≤ sampleState.cx) ∧
    ∃ L, rowLen { sampleState with
          cy := if sampleState.cy < sampleState.rowNum then sampleState.cy + 1
                else sampleState.cy } = some L ∧
      move_cursor ARROW_DOWN sampleState
        = some { sampleState with
            cy := (if sampleState.cy < sampleState.rowNum then sampleState.cy + 1
                   else sampleState.cy),
            cx := min sampleState.cx L } :=
  ⟨by decide, (move_cursor_up_down sampleState (by decide) (by decide) (by decide)).2.1⟩

/-- C20: from a cursor on an existing line (`0 ≤ cy < rowNum`, `0 ≤ cx ≤` its
size), ARROW_RIGHT followed by ARROW_LEFT gives back the state it started from,
also across the wrap from the end of a line to the start of the next row. -/
theorem move_cursor_right_then_left (E : config) (r : textRow) (hb : bufferOk E)
    (hcy : 0 ≤ E.cy ∧ E.cy < E.rowNum) (hr : rowAt E E.cy = some r)
    (hcx : 0 ≤ E.cx ∧ E.cx ≤ r.size) :
    ∃ E1, move_cursor ARROW_RIGHT E = some E1 ∧ move_cursor ARROW_LEFT E1 = some E := by
  have hn : ¬ E.cy ≥ E.rowNum := by omega
  by_cases hlt : E.cx < r.size
  · have hsw : move_switch ARROW_RIGHT E = some { E with cx := E.cx + 1 } := by
      simp [move_switch, ARROW_RIGHT, ARROW_UP, ARROW_LEFT, ARROW_DOWN, hn, hr, hlt]
    have hL : rowLen { E with cx := E.cx + 1 } = some r.size :=
      rowLen_of_row _ r hcy.2 (by simpa [rowAt] using hr)
    have h1 := move_cursor_of_switch _ _ _ r.size hsw hL
    have hmin : min (E.cx + 1) r.size = E.cx + 1 := min_eq_left (by omega)
    simp only [hmin] at h1
    refine ⟨{ E with cx := E.cx + 1 }, h1, ?_⟩
    have hne : E.cx + 1 ≠ 0 := by omega
    have hsw2 : move_switch ARROW_LEFT { E with cx := E.cx + 1 }
        = some { E with cx := E.cx + 1 - 1 } := by
      simp [move_switch, ARROW_LEFT, ARROW_UP, hne]
    have hL2 : rowLen { E with cx := E.cx + 1 - 1 } = some r.size :=
      rowLen_of_row _ r hcy.2 (by simpa [rowAt] using hr)
    rw [move_cursor_of_switch _ _ _ r.size hsw2 hL2]
    have hmin2 : min (E.cx + 1 - 1) r.size = E.cx := by
      rw [add_sub_cancel_right]
      exact min_eq_left hcx.2
    simp only [hmin2]
  · have heq : E.cx = r.size := by omega
    have hsw : move_switch ARROW_RIGHT E = some { E with cy := E.cy + 1, cx := 0 } := by
      simp [move_switch, ARROW_RIGHT, ARROW_UP, ARROW_LEFT, ARROW_DOWN, hn, hr, heq]
    obtain ⟨L, hL, hL0⟩ := rowLen_defined { E with cy := E.cy + 1, cx := 0 }
      (bufferOk_of_eq E _ hb rfl rfl) ⟨by simp; omega, by simp; omega⟩
    have h1 := move_cursor_of_switch _ _ _ L hsw hL
    simp only [min_eq_left hL0] at h1
    refine ⟨{ E with cy := E.cy + 1, cx := 0 }, h1, ?_⟩
    have hpos : E.cy + 1 > 0 := by omega
    have hr2 : rowAt { E with cy := E.cy + 1, cx := 0 } E.cy = some r := by
      simpa [rowAt] using hr
    have hsw2 : move_switch ARROW_LEFT { E with cy := E.cy + 1, cx := 0 }
        = some { E with cy := E.cy + 1 - 1, cx := r.size } := by
      simp [move_switch, ARROW_LEFT, ARROW_UP, hpos, hr2]
    have hL2 : rowLen { E with cy := E.cy + 1 - 1, cx := r.size } = some r.size :=
      rowLen_of_row _ r (by simp; omega)
        (by simp only [add_sub_cancel_right]; simpa [rowAt] using hr)
    rw [move_cursor_of_switch _ _ _ r.size hsw2 hL2]
    simp only [min_self, add_sub_cancel_right, ← heq]

/-- Witness for C20: ARROW_RIGHT then ARROW_LEFT at the end of the first line of
the sample state, across the wrap to the second line. -/
theorem move_cursor_right_then_left_witness :
    (bufferOk sampleState ∧
      rowAt sampleState sampleState.cy = some { size := 2, chars := [97, 98, 0] }) ∧
    ∃ E1, move_cursor ARROW_RIGHT sampleState = some E1 ∧
      move_cursor ARROW_LEFT E1 = some sampleState :=
  ⟨by decide,
   move_cursor_right_then_left sampleState { size := 2, chars := [97, 98, 0] }
     (by decide) (by decide) (by decide) (by decide)⟩

/-! ## Command dispatch: paging and the row range -/

/-- The arrow keys are handed to `move_cursor`. -/
theorem process_keypress_arrow (k : Int) (E : config)
    (hk : k = ARROW_UP ∨ k = ARROW_DOWN ∨ k = ARROW_LEFT ∨ k = ARROW_RIGHT) :
    process_keypress k E = (match move_cursor k E with
      | some E1 => KeypressOutcome.continues E1
      | none => KeypressOutcome.invalidAccess) := by
  rcases hk with h | h | h | h <;> subst h <;>
    simp [process_keypress, CTRL_KEY_q, ARROW_UP, ARROW_DOWN, ARROW_LEFT, ARROW_RIGHT,
      PAGE_UP, PAGE_DOWN, HOME_KEY, END_KEY]

/-- The page keys run `screenRows - 1` calls of `move_cursor` when
`screenRows ≥ 1`. -/
theorem process_keypress_page_eq (k : Int) (E : config) (hk : k = PAGE_UP ∨ k = PAGE_DOWN) :
    process_keypress k E = (if 1 ≤ E.screenRows then
      (match move_cursor_seq (List.replicate (E.screenRows - 1).toNat
          (if k = PAGE_DOWN then ARROW_DOWN else ARROW_UP)) E with
        | some E1 => KeypressOutcome.continues E1
        | none => KeypressOutcome.invalidAccess)
      else KeypressOutcome.runaway) := by
  rcases hk with h | h <;> subst h <;>
    simp [process_keypress, CTRL_KEY_q, page_loop_eq_seq, ARROW_UP, ARROW_DOWN,
      PAGE_UP, PAGE_DOWN, HOME_KEY, END_KEY]

/-- A run of `move_cursor` calls, for any keys, from a state with `cy` in
`0..rowNum`: every call returns, only `cx` and `cy` change, and `cy` stays in
`0..rowNum`. -/
theorem move_cursor_seq_cy (keys : List Int) :
    ∀ E : config, bufferOk E → 0 ≤ E.cy ∧ E.cy ≤ E.rowNum →
    ∃ E1, move_cursor_seq keys E = some E1 ∧ E1 = { E with cx := E1.cx, cy := E1.cy } ∧
      0 ≤ E1.cy ∧ E1.cy ≤ E.rowNum := by
  induction keys with
  | nil =>
    intro E _ hcy
    exact ⟨E, rfl, rfl, hcy.1, hcy.2⟩
  | cons k ks ih =>
    intro E hb hcy
    obtain ⟨E1, _, h1, hframe, hy0, hy1, _⟩ := move_cursor_spec k E hb hcy
    have hnum : E1.rowNum = E.rowNum := by rw [hframe]
    obtain ⟨E2, h2, hframe2, hy20, hy21⟩ :=
      ih E1 (bufferOk_of_eq E E1 hb (by rw [hframe]) hnum) ⟨hy0, by rw [hnum]; exact hy1⟩
    refine ⟨E2, ?_, ?_, hy20, by rw [← hnum]; exact hy21⟩
    · simp [move_cursor_seq, h1, h2]
    · rw [hframe2, hframe]

/-- One ARROW_DOWN from a state with `cy` in `0..rowNum` moves `cy` to the
smaller of `cy + 1` and `rowNum`. -/
theorem move_cursor_down_cy (E : config) (hb : bufferOk E)
    (hcy : 0 ≤ E.cy ∧ E.cy ≤ E.rowNum) :
    ∃ E1, move_cursor ARROW_DOWN E = some E1 ∧ E1 = { E with cx := E1.cx, cy := E1.cy } ∧
      E1.cy = min (E.cy + 1) E.rowNum := by
  have hsw : move_switch ARROW_DOWN E
      = some { E with cy := if E.cy < E.rowNum then E.cy + 1 else E.cy } := by
    by_cases h0 : E.cy < E.rowNum
    · simp [move_switch, ARROW_DOWN, ARROW_UP, ARROW_LEFT, h0]
    · simp [move_switch, ARROW_DOWN, ARROW_UP, ARROW_LEFT, h0]
  obtain ⟨L, hL, _⟩ := rowLen_defined
    { E with cy := if E.cy < E.rowNum then E.cy + 1 else E.cy }
    (bufferOk_of_eq E _ hb rfl rfl) (by simp only []; split_ifs <;> omega)
  refine ⟨_, move_cursor_of_switch _ _ _ L hsw hL, rfl, ?_⟩
  simp only []
  split_ifs with h <;> omega

/-- One ARROW_UP from a state with `cy` in `0..rowNum` moves `cy` to the larger
of `cy - 1` and 0. -/
theorem move_cursor_up_cy (E : config) (hb : bufferOk E)
    (hcy : 0 ≤ E.cy ∧ E.cy ≤ E.rowNum) :
    ∃ E1, move_cursor ARROW_UP E = some E1 ∧ E1 = { E with cx := E1.cx, cy := E1.cy } ∧
      E1.cy = max (E.cy - 1) 0 := by
  have hsw : move_switch ARROW_UP E
      = some { E with cy := if E.cy ≠ 0 then E.cy - 1 else E.cy } := by
    by_cases h0 : E.cy ≠ 0
    · simp [move_switch, h0]
    · have hup : move_switch ARROW_UP E
          = some (if E.cy ≠ 0 then { E with cy := E.cy - 1 } else E) := by
        simp [move_switch]
      rw [hup, if_neg h0, if_neg h0]
  obtain ⟨L, hL, _⟩ := rowLen_defined
    { E with cy := if E.cy ≠ 0 then E.cy - 1 else E.cy }
    (bufferOk_of_eq E _ hb rfl rfl) (by simp only []; split_ifs <;> omega)
  refine ⟨_, move_cursor_of_switch _ _ _ L hsw hL, rfl, ?_⟩
  simp only []
  split_ifs with h <;> omega

/-- After `k` calls of `move_cursor(ARROW_DOWN)`, `cy` is the smaller of `cy + k`
and `rowNum`. -/
theorem move_cursor_seq_down (k : Nat) :
    ∀ E : config, bufferOk E → 0 ≤ E.cy ∧ E.cy ≤ E.rowNum →
    ∃ E1, move_cursor_seq (List.replicate k ARROW_DOWN) E = some E1 ∧
      E1 = { E with cx := E1.cx, cy := E1.cy } ∧ E1.cy = min (E.cy + k) E.rowNum := by
  induction k with
  | zero =>
    intro E _ hcy
    exact ⟨E, rfl, rfl, by simp [hcy.2]⟩
  | succ k ih =>
    intro E hb hcy
    obtain ⟨E1, h1, hframe, hy⟩ := move_cursor_down_cy E hb hcy
    have hnum : E1.rowNum = E.rowNum := by rw [hframe]
    obtain ⟨E2, h2, hframe2, hy2⟩ := ih E1 (bufferOk_of_eq E E1 hb (by rw [hframe]) hnum)
      (by rw [hy, hnum]; exact ⟨by omega, min_le_right _ _⟩)
    refine ⟨E2, ?_, ?_, ?_⟩
    · simp [List.replicate_succ, move_cursor_seq, h1, h2]
    · rw [hframe2, hframe]
    · rw [hy2, hy, hnum]
      push_cast
      omega

/-- After `k` calls of `move_cursor(ARROW_UP)`, `cy` is the larger of `cy - k`
and 0. -/
theorem move_cursor_seq_up (k : Nat) :
    ∀ E : config, bufferOk E → 0 ≤ E.cy ∧ E.cy ≤ E.rowNum →
    ∃ E1, move_cursor_seq (List.replicate k ARROW_UP) E = some E1 ∧
      E1 = { E with cx := E1.cx, cy := E1.cy } ∧ E1.cy = max (E.cy - k) 0 := by
  induction k with
  | zero =>
    intro E _ hcy
    exact ⟨E, rfl, rfl, by simp [hcy.1]⟩
  | succ k ih =>
    intro E hb hcy
    obtain ⟨E1, h1, hframe, hy⟩ := move_cursor_up_cy E hb hcy
    have hnum : E1.rowNum = E.rowNum := by rw [hframe]
    obtain ⟨E2, h2, hframe2, hy2⟩ := ih E1 (bufferOk_of_eq E E1 hb (by rw [hframe]) hnum)
      (by rw [hy, hnum]; exact ⟨le_max_right _ _, by omega⟩)
    refine ⟨E2, ?_, ?_, ?_⟩
    · simp [List.replicate_succ, move_cursor_seq, h1, h2]
    · rw [hframe2, hframe]
    · rw [hy2, hy]
      push_cast
      omega

/-- C15: with `screenRows ≥ 1` and `0 ≤ cy ≤ rowNum`, PAGE_DOWN (PAGE_UP) returns
and is exactly `screenRows - 1` successive calls of `move_cursor(ARROW_DOWN)`
(`ARROW_UP`): `cy` becomes the smaller of `cy + screenRows - 1` and `rowNum` (the
larger of `cy - (screenRows - 1)` and 0), the offsets are unchanged, and with
`screenRows = 1` the state is unchanged. -/
theorem page_keys_result (E : config) (hb : bufferOk E) (hsr : 1 ≤ E.screenRows)
    (hcy : 0 ≤ E.cy ∧ E.cy ≤ E.rowNum) :
    (∃ E1, move_cursor_seq (List.replicate (E.screenRows - 1).toNat ARROW_DOWN) E = some E1 ∧
      process_keypress PAGE_DOWN E = KeypressOutcome.continues E1 ∧
      E1.cy = min (E.cy + E.screenRows - 1) E.rowNum ∧
      E1.rowOffset = E.rowOffset ∧ E1.colOffset = E.colOffset) ∧
    (∃ E1, move_cursor_seq (List.replicate (E.screenRows - 1).toNat ARROW_UP) E = some E1 ∧
      process_keypress PAGE_UP E = KeypressOutcome.continues E1 ∧
      E1.cy = max (E.cy - (E.screenRows - 1)) 0 ∧
      E1.rowOffset = E.rowOffset ∧ E1.colOffset = E.colOffset) ∧
    (E.screenRows = 1 →
      process_keypress PAGE_DOWN E = KeypressOutcome.continues E ∧
      process_keypress PAGE_UP E = KeypressOutcome.continues E) := by
  have hdown : (if PAGE_DOWN = PAGE_DOWN then ARROW_DOWN else ARROW_UP) = ARROW_DOWN :=
    if_pos rfl
  have hup : (if PAGE_UP = PAGE_DOWN then ARROW_DOWN else ARROW_UP) = ARROW_UP :=
    if_neg (by decide)
  have hk : (((E.screenRows - 1).toNat : Nat) : Int) = E.screenRows - 1 :=
    Int.toNat_of_nonneg (by omega)
  refine ⟨?_, ?_, ?_⟩
  · obtain ⟨E1, h1, hframe, hy⟩ :=
      move_cursor_seq_down (E.screenRows - 1).toNat E hb hcy
    refine ⟨E1, h1, ?_, ?_, by rw [hframe], by rw [hframe]⟩
    · rw [process_keypress_page_eq PAGE_DOWN E (Or.inr rfl), if_pos hsr, hdown, h1]
    · rw [hy, hk]
      congr 1
      omega
  · obtain ⟨E1, h1, hframe, hy⟩ :=
      move_cursor_seq_up (E.screenRows - 1).toNat E hb hcy
    refine ⟨E1, h1, ?_, ?_, by rw [hframe], by rw [hframe]⟩
    · rw [process_keypress_page_eq PAGE_UP E (Or.inl rfl), if_pos hsr, hup, h1]
    · rw [hy, hk]
  · intro h1
    have h0 : (E.screenRows - 1).toNat = 0 := by omega
    constructor
    · rw [process_keypress_page_eq PAGE_DOWN E (Or.inr rfl), if_pos hsr, h0]
      rfl
    · rw [process_keypress_page_eq PAGE_UP E (Or.inl rfl), if_pos hsr, h0]
      rfl

/-- Witness for C15: PAGE_DOWN on the sample state. -/
theorem page_keys_result_witness :
    (bufferOk sampleState ∧ 1 ≤ sampleState.screenRows) ∧
    ∃ E1, move_cursor_seq
        (List.replicate (sampleState.screenRows - 1).toNat ARROW_DOWN) sampleState = some E1 ∧
      process_keypress PAGE_DOWN sampleState = KeypressOutcome.continues E1 ∧
      E1.cy = min (sampleState.cy + sampleState.screenRows - 1) sampleState.rowNum ∧
      E1.rowOffset = sampleState.rowOffset ∧ E1.colOffset = sampleState.colOffset :=
  ⟨by decide, (page_keys_result sampleState (by decide) (by decide) (by decide)).1⟩

/-- C19: over a well-formed buffer, `0 ≤ cy ≤ rowNum` is kept by every call of
`move_cursor`, whatever the key, and by every navigation command of
`process_keypress` that returns (each returns when `screenRows ≥ 1`); from a
state with `0 ≤ cy ≤ rowNum` no call reads a row outside the array: `move_cursor`
always returns a state and no navigation command ends in an invalid access. -/
theorem cursor_row_stays_in_range (E : config) (hb : bufferOk E)
    (hcy : 0 ≤ E.cy ∧ E.cy ≤ E.rowNum) :
    (∀ key : Int, ∃ E1, move_cursor key E = some E1 ∧ E1.row = E.row ∧
      E1.rowNum = E.rowNum ∧ 0 ≤ E1.cy ∧ E1.cy ≤ E1.rowNum) ∧
    (∀ c : Int, (c = ARROW_UP ∨ c = ARROW_DOWN ∨ c = ARROW_LEFT ∨ c = ARROW_RIGHT ∨
        c = PAGE_UP ∨ c = PAGE_DOWN ∨ c = HOME_KEY ∨ c = END_KEY) →
      process_keypress c E ≠ KeypressOutcome.invalidAccess ∧
      (1 ≤ E.screenRows → ∃ E1, process_keypress c E = KeypressOutcome.continues E1) ∧
      (∀ E1, process_keypress c E = KeypressOutcome.continues E1 →
        E1.row = E.row ∧ E1.rowNum = E.rowNum ∧ 0 ≤ E1.cy ∧ E1.cy ≤ E1.rowNum)) := by
  constructor
  · intro key
    obtain ⟨E1, _, h1, hframe, hy0, hy1, _⟩ := move_cursor_spec key E hb hcy
    have hnum : E1.rowNum = E.rowNum := by rw [hframe]
    exact ⟨E1, h1, by rw [hframe], hnum, hy0, by rw [hnum]; exact hy1⟩
  · intro c hc
    rcases hc with h | h | h | h | h | h | h | h
    case inr.inr.inr.inr.inr.inr.inl =>
      subst h
      have he : process_keypress HOME_KEY E = KeypressOutcome.continues { E with cx := 0 } := by
        simp [process_keypress, CTRL_KEY_q, HOME_KEY]
      rw [he]
      refine ⟨by simp, fun _ => ⟨_, rfl⟩, ?_⟩
      intro E1 h1
      injection h1 with h1
      subst h1
      exact ⟨rfl, rfl, hcy.1, hcy.2⟩
    case inr.inr.inr.inr.inr.inr.inr =>
      subst h
      have he : process_keypress END_KEY E
          = KeypressOutcome.continues { E with cx := E.screenCols - 1 } := by
        simp [process_keypress, CTRL_KEY_q, END_KEY, HOME_KEY]
      rw [he]
      refine ⟨by simp, fun _ => ⟨_, rfl⟩, ?_⟩
      intro E1 h1
      injection h1 with h1
      subst h1
      exact ⟨rfl, rfl, hcy.1, hcy.2⟩
    case inr.inr.inr.inr.inl | inr.inr.inr.inr.inr.inl =>
      rw [process_keypress_page_eq c E (by first | exact Or.inl h | exact Or.inr h)]
      obtain ⟨E2, h2, hframe, hy0, hy1⟩ := move_cursor_seq_cy
        (List.replicate (E.screenRows - 1).toNat
          (if c = PAGE_DOWN then ARROW_DOWN else ARROW_UP)) E hb hcy
      have hnum : E2.rowNum = E.rowNum := by rw [hframe]
      rw [h2]
      refine ⟨?_, fun hr => ⟨E2, by rw [if_pos hr]⟩, ?_⟩
      · by_cases hr : 1 ≤ E.screenRows
        · rw [if_pos hr]
          simp
        · rw [if_neg hr]
          simp
      · intro E1 h1
        by_cases hr : 1 ≤ E.screenRows
        · rw [if_pos hr] at h1
          injection h1 with h1
          subst h1
          exact ⟨by rw [hframe], hnum, hy0, by rw [hnum]; exact hy1⟩
        · rw [if_neg hr] at h1
          cases h1
    all_goals
      rw [process_keypress_arrow c E (by simp [h])]
      obtain ⟨E2, _, h2, hframe, hy0, hy1, _⟩ := move_cursor_spec c E hb hcy
      have hnum : E2.rowNum = E.rowNum := by rw [hframe]
      rw [h2]
      refine ⟨by simp, fun _ => ⟨E2, rfl⟩, ?_⟩
      intro E1 h1
      injection h1 with h1
      subst h1
      exact ⟨by rw [hframe], hnum, hy0, by rw [hnum]; exact hy1⟩

/-- Witness for C19: the sample state, the key ARROW_LEFT and the command
END_KEY. -/
theorem cursor_row_stays_in_range_witness :
    (bufferOk sampleState ∧ 0 ≤ sampleState.cy ∧ sampleState.cy ≤ sampleState.rowNum) ∧
    (∃ E1, move_cursor ARROW_LEFT sampleState = some E1 ∧ E1.row = sampleState.row ∧
      E1.rowNum = sampleState.rowNum ∧ 0 ≤ E1.cy ∧ E1.cy ≤ E1.rowNum) ∧
    process_keypress END_KEY sampleState ≠ KeypressOutcome.invalidAccess :=
  ⟨by decide,
   (cursor_row_stays_in_range sampleState (by decide) (by decide)).1 ARROW_LEFT,
   ((cursor_row_stays_in_range sampleState (by decide) (by decide)).2 END_KEY
     (by decide)).1⟩

/-! ## Scrolling: dependence on the previous offsets -/

/-- The function `scroll` changes the two offsets only, and the new offsets are
the old ones moved as little as needed towards the cursor. -/
theorem scroll_spec (E : config) :
    scroll E = { E with rowOffset := (scroll E).rowOffset, colOffset := (scroll E).colOffset } ∧
    (scroll E).rowOffset = max (min E.rowOffset E.cy) (E.cy - E.screenRows + 1) ∧
    (scroll E).colOffset = max (min E.colOffset E.cx) (E.cx - E.screenCols + 1) := by
  unfold scroll
  simp only []
  split_ifs <;> simp_all <;> omega

/-- C18, as stated, fails: two states with the same cursor and window, one
scrolled to row 0 and one to row 3, keep their different row offsets. -/
theorem scroll_keeps_previous_offset :
    (bufferOk longState ∧ bufferOk { longState with rowOffset := 3 }) ∧
    (scroll longState).rowOffset = 0 ∧
    (scroll { longState with rowOffset := 3 }).rowOffset = 3 ∧
    (scroll longState).rowOffset ≠ (scroll { longState with rowOffset := 3 }).rowOffset := by
  decide

/-- C18, amended: `scroll` computes the new offsets from the cursor, the window
size and the previous offsets: the new `rowOffset` is the larger of
`min rowOffset cy` and `cy - screenRows + 1`, likewise for the columns, so a
previous offset whose window holds the cursor is kept, and two states that agree
on `cx`, `cy`, `screenRows`, `screenCols` and on the previous `rowOffset` and
`colOffset` have equal offsets after `scroll`. -/
theorem scroll_offsets_from_previous (E1 E2 : config) (hx : E1.cx = E2.cx)
    (hy : E1.cy = E2.cy) (hr : E1.screenRows = E2.screenRows)
    (hc : E1.screenCols = E2.screenCols) (hro : E1.rowOffset = E2.rowOffset)
    (hco : E1.colOffset = E2.colOffset) :
    (scroll E1).rowOffset = (scroll E2).rowOffset ∧
    (scroll E1).colOffset = (scroll E2).colOffset ∧
    (scroll E1).rowOffset = max (min E1.rowOffset E1.cy) (E1.cy - E1.screenRows + 1) ∧
    (scroll E1).colOffset = max (min E1.colOffset E1.cx) (E1.cx - E1.screenCols + 1) ∧
    (E1.rowOffset ≤ E1.cy ∧ E1.cy < E1.rowOffset + E1.screenRows →
      (scroll E1).rowOffset = E1.rowOffset) ∧
    (E1.colOffset ≤ E1.cx ∧ E1.cx < E1.colOffset + E1.screenCols →
      (scroll E1).colOffset = E1.colOffset) := by
  have hrow : ∀ E : config,
      (scroll E).rowOffset = max (min E.rowOffset E.cy) (E.cy - E.screenRows + 1) :=
    fun E => (scroll_spec E).2.1
  have hcol : ∀ E : config,
      (scroll E).colOffset = max (min E.colOffset E.cx) (E.cx - E.screenCols + 1) :=
    fun E => (scroll_spec E).2.2
  refine ⟨?_, ?_, hrow E1, hcol E1, ?_, ?_⟩
  · rw [hrow E1, hrow E2, hy, hr, hro]
  · rw [hcol E1, hcol E2, hx, hc, hco]
  · intro h
    rw [hrow E1]
    omega
  · intro h
    rw [hcol E1]
    omega

/-- Witness for C18 (amended): the second sample state against a copy with one
more line in the buffer. -/
theorem scroll_offsets_from_previous_witness :
    (longState.cx = ({ longState with
        rowNum := 31, row := List.replicate 31 { size := 0, chars := [0] } } : config).cx ∧
      longState.rowOffset = ({ longState with
        rowNum := 31, row := List.replicate 31 { size := 0, chars := [0] } } : config).rowOffset) ∧
    (scroll longState).rowOffset = (scroll { longState with
        rowNum := 31, row := List.replicate 31 { size := 0, chars := [0] } }).rowOffset :=
  ⟨by decide,
   (scroll_offsets_from_previous longState
     { longState with rowNum := 31, row := List.replicate 31 { size := 0, chars := [0] } }
     rfl rfl rfl rfl rfl rfl).1⟩

/-! ## Rendering the rows of a buffer with lines -/

/-- The bytes that the code copies from a row are the window part of its text. -/
theorem row_slice (vec : List Nat) (r : textRow) (colOffset screenCols : Int)
    (hs : 0 ≤ r.size) (hlen : (r.chars.length : Int) = r.size + 1) (hco : 0 ≤ colOffset)
    (hsc : 0 ≤ screenCols) :
    (charsFrom r colOffset).bind (fun s => vector_append vec s
        (if (if r.size - colOffset < 0 then 0 else r.size - colOffset) > screenCols
         then screenCols
         else (if r.size - colOffset < 0 then 0 else r.size - colOffset)))
      = some (vec ++ ((r.chars.take r.size.toNat).drop colOffset.toNat).take
          screenCols.toNat) := by
  have hn : (if (if r.size - colOffset < 0 then 0 else r.size - colOffset) > screenCols
         then screenCols
         else (if r.size - colOffset < 0 then 0 else r.size - colOffset)).toNat
      = min screenCols.toNat (r.size.toNat - colOffset.toNat) := by
    split_ifs <;> omega
  have h0 : 0 ≤ (if (if r.size - colOffset < 0 then 0 else r.size - colOffset) > screenCols
         then screenCols
         else (if r.size - colOffset < 0 then 0 else r.size - colOffset)) := by
    split_ifs <;> omega
  have h1 : (if (if r.size - colOffset < 0 then 0 else r.size - colOffset) > screenCols
         then screenCols
         else (if r.size - colOffset < 0 then 0 else r.size - colOffset))
      ≤ (((r.chars.drop colOffset.toNat).length : Nat) : Int) := by
    rw [List.length_drop]
    split_ifs <;> omega
  simp only [charsFrom, if_pos hco, Option.some_bind]
  rw [vector_append_ok vec _ _ h0 h1, hn, List.drop_take, List.take_take]

/-- For a buffer with lines the loop body adds the row of the specification. -/
theorem draw_row_text (E : config) (y : Nat) (vec : List Nat) (hb : bufferOk E)
    (ht : textOk E) (hnum : 1 ≤ E.rowNum) (hro : 0 ≤ E.rowOffset) (hco : 0 ≤ E.colOffset)
    (hsc : 0 ≤ E.screenCols) :
    draw_row E (y : Int) vec = some (vec ++ spec_draw_row E y) := by
  have hesc : ∀ v : List Nat, vector_append v (cstr [27, 91, 75]) 3 = some (v ++ [27, 91, 75]) :=
    fun v => by rw [vector_append_ok v _ 3 (by decide) (by decide)]; rfl
  have hnl : ∀ v : List Nat, vector_append v (cstr [13, 10]) 2 = some (v ++ [13, 10]) :=
    fun v => by rw [vector_append_ok v _ 2 (by decide) (by decide)]; rfl
  have htilde : vector_append vec (cstr [126]) 1 = some (vec ++ [126]) := by
    rw [vector_append_ok vec _ 1 (by decide) (by decide)]; rfl
  have hne : ¬ (E.rowNum = 0 ∧ (y : Int) = E.screenRows.tdiv 3) := fun h => by omega
  have htext : (if (y : Int) + E.rowOffset ≥ E.rowNum then
        (if E.rowNum = 0 ∧ (y : Int) = E.screenRows.tdiv 3 then draw_welcome E vec
         else vector_append vec (cstr [126]) 1)
      else
        (rowAt E ((y : Int) + E.rowOffset)).bind fun r =>
          (charsFrom r E.colOffset).bind fun s => vector_append vec s
            (if (if r.size - E.colOffset < 0 then 0 else r.size - E.colOffset) > E.screenCols
             then E.screenCols
             else (if r.size - E.colOffset < 0 then 0 else r.size - E.colOffset)))
      = some (vec ++ spec_text_row E y) := by
    by_cases hfile : (y : Int) + E.rowOffset ≥ E.rowNum
    · rw [if_pos hfile, if_neg hne, htilde]
      simp [spec_text_row, not_lt.mpr hfile]
    · obtain ⟨r, hr, hmem, hs⟩ := rowAt_of_lt E hb ((y : Int) + E.rowOffset) (by omega)
        (by omega)
      rw [if_neg hfile, hr, Option.some_bind,
        row_slice vec r E.colOffset E.screenCols hs (ht r hmem) hco hsc]
      simp [spec_text_row, not_le.mp hfile, hr]
  unfold draw_row
  simp only []
  rw [htext]
  simp only [Option.some_bind, hesc, spec_draw_row]
  by_cases hl : (y : Int) < E.screenRows - 1
  · simp only [if_pos hl, hnl, List.append_assoc]
  · simp only [if_neg hl, List.append_assoc, List.append_nil]

/-- For a buffer with lines the row loop adds the rows of the specification, one
after the other. -/
theorem draw_rows_from_text (E : config) (hb : bufferOk E) (ht : textOk E)
    (hnum : 1 ≤ E.rowNum) (hro : 0 ≤ E.rowOffset) (hco : 0 ≤ E.colOffset)
    (hsc : 0 ≤ E.screenCols) (k : Nat) :
    ∀ (y : Nat) (vec : List Nat), draw_rows_from E k (y : Int) vec
      = some (vec ++ (List.range' y k).flatMap (spec_draw_row E)) := by
  induction k with
  | zero => intro y vec; simp [draw_rows_from]
  | succ k ih =>
    intro y vec
    have hcast : ((y : Int) + 1) = ((y + 1 : Nat) : Int) := by simp
    rw [draw_rows_from, draw_row_text E y vec hb ht hnum hro hco hsc, Option.some_bind, hcast,
      ih (y + 1), List.range'_succ, List.flatMap_cons, List.append_assoc]

/-- The row theorems take the window width as a count of columns, `screenCols ≥ 0`:
with the two-line sample buffer and `screenCols` set to -1, outside that range,
the first row would be appended with the length -1 and `draw_rows` gives no
output. -/
theorem draw_rows_width_is_count :
    (bufferOk { sampleState with screenCols := -1 } ∧
      textOk { sampleState with screenCols := -1 } ∧
      1 ≤ ({ sampleState with screenCols := -1 } : config).rowNum ∧
      0 ≤ ({ sampleState with screenCols := -1 } : config).rowOffset ∧
      0 ≤ ({ sampleState with screenCols := -1 } : config).colOffset ∧
      1 ≤ ({ sampleState with screenCols := -1 } : config).screenRows) ∧
    draw_rows { sampleState with screenCols := -1 } [27, 91, 50, 53, 108, 0, 27, 91, 72]
      = none ∧
    draw_row { sampleState with screenCols := -1 } 0 [27, 91, 50, 53, 108, 0, 27, 91, 72]
      = none := by
  decide

/-- C16: for a buffer with at least one line, `rowOffset ≥ 0`, `colOffset ≥ 0`
and a window with `screenRows ≥ 1` (its width `screenCols` being a count of
columns, so not negative), `draw_rows` adds, for
`y = 0, ..., screenRows - 1` in order, the text of the row, then `ESC [ K`, then
CR LF except on the last row; the text is the part of line `y + rowOffset` from
`colOffset` up to `colOffset + screenCols`, cut at the end of the line (empty when
`colOffset` is at or past the end), if there is such a line, and a lone `'~'`
otherwise. -/
theorem draw_rows_text_buffer (E : config) (vec : List Nat) (hb : bufferOk E)
    (ht : textOk E) (hnum : 1 ≤ E.rowNum) (hro : 0 ≤ E.rowOffset) (hco : 0 ≤ E.colOffset)
    (_hsr : 1 ≤ E.screenRows) (hsc : 0 ≤ E.screenCols) :
    draw_rows E vec
      = some (vec ++ (List.range E.screenRows.toNat).flatMap fun y =>
          spec_text_row E y ++ [27, 91, 75]
            ++ (if (y : Int) < E.screenRows - 1 then [13, 10] else [])) ∧
    (∀ y : Nat, E.rowNum ≤ (y : Int) + E.rowOffset → spec_text_row E y = [126]) ∧
    (∀ (y : Nat) (r : textRow), (y : Int) + E.rowOffset < E.rowNum →
      rowAt E ((y : Int) + E.rowOffset) = some r →
      spec_text_row E y
        = ((r.chars.take r.size.toNat).drop E.colOffset.toNat).take E.screenCols.toNat ∧
      (r.size ≤ E.colOffset → spec_text_row E y = [])) := by
  refine ⟨?_, ?_, ?_⟩
  · have h := draw_rows_from_text E hb ht hnum hro hco hsc E.screenRows.toNat 0 vec
    have hf : spec_draw_row E = fun y : Nat => spec_text_row E y ++ [27, 91, 75]
        ++ (if (y : Int) < E.screenRows - 1 then [13, 10] else []) := rfl
    rw [hf] at h
    rw [draw_rows, List.range_eq_range']
    simpa using h
  · intro y hy
    simp [spec_text_row, not_lt.mpr hy]
  · intro y r hy hr
    have hslice : spec_text_row E y
        = ((r.chars.take r.size.toNat).drop E.colOffset.toNat).take E.screenCols.toNat := by
      simp [spec_text_row, hy, hr]
    refine ⟨hslice, ?_⟩
    intro hle
    rw [hslice, List.drop_take]
    have : r.size.toNat - E.colOffset.toNat = 0 := by omega
    rw [this]
    simp

/-- Witness for C16: the sample state, scrolled one column to the
right. -/
theorem draw_rows_text_buffer_witness :
    (bufferOk { sampleState with colOffset := 1 } ∧ textOk { sampleState with colOffset := 1 }) ∧
    draw_rows { sampleState with colOffset := 1 } []
      = some ([] ++ (List.range ({ sampleState with colOffset := 1 } : config).screenRows.toNat).flatMap
          fun y => spec_text_row { sampleState with colOffset := 1 } y ++ [27, 91, 75]
            ++ (if (y : Int) < ({ sampleState with colOffset := 1 } : config).screenRows - 1
                then [13, 10] else [])) :=
  ⟨by decide,
   (draw_rows_text_buffer { sampleState with colOffset := 1 } [] (by decide) (by decide)
     (by decide) (by decide) (by decide) (by decide) (by decide)).1⟩

/-! ## Building a frame: the cursor escape -/

/-- The digits produced by `dec_digits` agree with the decimal digits of the
standard library. -/
theorem dec_digits_eq_toDigitsCore (f : Nat) :
    ∀ (n : Nat) (ds : List Char),
      dec_digits f n (ds.map Char.toNat) = (Nat.toDigitsCore 10 f n ds).map Char.toNat := by
  induction f with
  | zero => intro n ds; rfl
  | succ f ih =>
    intro n ds
    have hd : (Nat.digitChar (n % 10)).toNat = 48 + n % 10 := by
      have hlt : n % 10 < 10 := Nat.mod_lt n (by decide)
      interval_cases (n % 10) <;> rfl
    simp only [dec_digits, Nat.toDigitsCore]
    by_cases h : n < 10
    · have h0 : n / 10 = 0 := Nat.div_eq_of_lt h
      have hm : n % 10 = n := Nat.mod_eq_of_lt h
      rw [if_pos h, if_pos h0, List.map_cons, hd, hm]
    · have h0 : ¬ n / 10 = 0 := by omega
      rw [if_neg h, if_neg h0, ← ih, List.map_cons, hd]

/-- For a value that is not negative, `%d` gives the decimal digits of the
standard library. -/
theorem fmt_d_eq_toDigits (n : Nat) :
    fmt_d (n : Int) = (Nat.toDigits 10 n).map Char.toNat := by
  have h : ¬ ((n : Int) < 0) := by omega
  rw [fmt_d, if_neg h, Int.toNat_ofNat, Nat.toDigits, ← dec_digits_eq_toDigitsCore]
  rfl

/-- No digit byte is 0. -/
theorem dec_digits_ne_zero (f : Nat) :
    ∀ (n : Nat) (acc : List Nat), (∀ b ∈ acc, b ≠ 0) → ∀ b ∈ dec_digits f n acc, b ≠ 0 := by
  induction f with
  | zero => intro n acc h; exact h
  | succ f ih =>
    intro n acc h
    simp only [dec_digits]
    split_ifs
    · intro b hb
      rcases List.mem_cons.mp hb with hb | hb
      · omega
      · exact h b hb
    · apply ih
      intro b hb
      rcases List.mem_cons.mp hb with hb | hb
      · omega
      · exact h b hb

/-- A number below `10 ^ k` has at most `k` digits. -/
theorem dec_digits_length (f : Nat) :
    ∀ (n : Nat) (acc : List Nat) (k : Nat), 1 ≤ k → n < 10 ^ k →
      (dec_digits f n acc).length ≤ k + acc.length := by
  induction f with
  | zero => intro n acc k _ _; simp [dec_digits]
  | succ f ih =>
    intro n acc k hk hn
    simp only [dec_digits]
    split_ifs with h
    · simp only [List.length_cons]
      omega
    · obtain ⟨j, rfl⟩ : ∃ j, k = j + 1 := ⟨k - 1, by omega⟩
      have hj : 1 ≤ j := by
        rcases Nat.eq_zero_or_pos j with h0 | h0
        · subst h0
          simp at hn
          omega
        · exact h0
      have hdiv : n / 10 < 10 ^ j := by
        rw [Nat.div_lt_iff_lt_mul (by decide)]
        rw [pow_succ] at hn
        exact hn
      have := ih (n / 10) ((48 + n % 10) :: acc) j hj hdiv
      simp only [List.length_cons] at this
      omega

/-- For a value in `0 .. 2^31 - 1`, `%d` gives at most 10 bytes, none of them 0. -/
theorem fmt_d_bounds (i : Int) (h0 : 0 ≤ i) (h1 : i < 2147483648) :
    (fmt_d i).length ≤ 10 ∧ ∀ b ∈ fmt_d i, b ≠ 0 := by
  have hneg : ¬ i < 0 := by omega
  rw [fmt_d, if_neg hneg]
  constructor
  · have := dec_digits_length (i.toNat + 1) i.toNat [] 10 (by decide) (by omega)
    simpa using this
  · exact dec_digits_ne_zero _ _ [] (by simp)

/-- The length of a string literal without a byte 0 is the number of its
bytes. -/
theorem strlen_cstr (l : List Nat) (h : ∀ b ∈ l, b ≠ 0) : strlen (cstr l) = l.length := by
  unfold strlen cstr
  induction l with
  | nil => simp [List.takeWhile]
  | cons a t ih =>
    have ha : a ≠ 0 := h a (List.mem_cons_self a t)
    have ht : ∀ b ∈ t, b ≠ 0 := fun b hb => h b (List.mem_cons_of_mem a hb)
    have hp : (a != 0) = true := by simpa using ha
    simp only [List.cons_append, List.takeWhile_cons, hp, if_true, List.length_cons, ih ht]

/-- Appending a string literal with its own length adds its bytes. -/
theorem vector_append_cstr (vec l : List Nat) :
    vector_append vec (cstr l) (l.length : Int) = some (vec ++ l) := by
  rw [vector_append_ok vec _ _ (by omega) (by simp [cstr]), Int.toNat_ofNat]
  unfold cstr
  rw [List.take_left]

/-- For two values in `0 .. 2^31 - 1` the formatted cursor escape fits into the
32-byte array, and appending it adds `ESC [ a ; b H`. -/
theorem append_cursor_escape (vec : List Nat) (a b : Int) (ha : 0 ≤ a ∧ a < 2147483648)
    (hb : 0 ≤ b ∧ b < 2147483648) :
    vector_append vec (snprintf_cursor a b) (strlen (snprintf_cursor a b))
      = some (vec ++ ([27, 91] ++ fmt_d a ++ [59] ++ fmt_d b ++ [72])) := by
  obtain ⟨hla, hna⟩ := fmt_d_bounds a ha.1 ha.2
  obtain ⟨hlb, hnb⟩ := fmt_d_bounds b hb.1 hb.2
  have hlen : ([27, 91] ++ fmt_d a ++ [59] ++ fmt_d b ++ [72]).length ≤ 31 := by
    simp only [List.length_append, List.length_cons, List.length_nil]
    omega
  have hnz : ∀ x ∈ [27, 91] ++ fmt_d a ++ [59] ++ fmt_d b ++ [72], x ≠ 0 := by
    intro x hx
    simp only [List.mem_append, List.mem_cons, List.mem_singleton, List.not_mem_nil,
      or_false] at hx
    rcases hx with (((h | h) | h) | h) | h
    · rcases h with h | h <;> omega
    · exact hna x h
    · omega
    · exact hnb x h
    · omega
  unfold snprintf_cursor
  rw [List.take_of_length_le hlen, strlen_cstr _ hnz, vector_append_cstr]

/-! ## Building a frame: the frame only grows -/

/-- An append keeps the bytes already in the buffer. -/
theorem vector_append_extends (v s : List Nat) (n : Int) (v1 : List Nat)
    (h : vector_append v s n = some v1) : ∃ t, v1 = v ++ t := by
  unfold vector_append at h
  split_ifs at h
  injection h with h
  exact ⟨_, h.symm⟩

/-- The welcome branch keeps the bytes already in the buffer. -/
theorem draw_welcome_extends (E : config) (v v1 : List Nat)
    (h : draw_welcome E v = some v1) : ∃ t, v1 = v ++ t := by
  unfold draw_welcome at h
  simp only [] at h
  generalize (if ((strlen welcome : Nat) : Int) > E.screenCols then E.screenCols
    else ((strlen welcome : Nat) : Int)) = wl at h
  generalize (E.screenCols - wl).tdiv 2 = pad at h
  obtain ⟨vp, hvp, h2⟩ := Option.bind_eq_some.mp h
  have hpre : ∃ t, vp.1 = v ++ t := by
    by_cases hp : pad ≠ 0
    · rw [if_pos hp] at hvp
      obtain ⟨w, hw, hwp⟩ := Option.map_eq_some'.mp hvp
      obtain ⟨t, ht⟩ := vector_append_extends _ _ _ _ hw
      exact ⟨t, by rw [← hwp]; exact ht⟩
    · rw [if_neg hp] at hvp
      injection hvp with hvp
      exact ⟨[], by rw [← hvp]; simp⟩
  by_cases h0 : 0 ≤ vp.2
  · rw [if_pos h0] at h2
    obtain ⟨w, hw, hw2⟩ := Option.bind_eq_some.mp h2
    rw [pad_loop_spec] at hw
    injection hw with hw
    obtain ⟨t2, ht2⟩ := vector_append_extends _ _ _ _ hw2
    obtain ⟨t, ht⟩ := hpre
    exact ⟨t ++ List.replicate vp.2.toNat 32 ++ t2, by
      rw [ht2, ← hw, ht]; simp⟩
  · rw [if_neg h0] at h2
    cases h2

/-- The loop body of `draw_rows` keeps the bytes already in the buffer. -/
theorem draw_row_extends (E : config) (y : Int) (v v1 : List Nat)
    (h : draw_row E y v = some v1) : ∃ t, v1 = v ++ t := by
  unfold draw_row at h
  simp only [] at h
  obtain ⟨w1, hw1, h2⟩ := Option.bind_eq_some.mp h
  obtain ⟨w2, hw2, h3⟩ := Option.bind_eq_some.mp h2
  have h1 : ∃ t, w1 = v ++ t := by
    by_cases hfile : y + E.rowOffset ≥ E.rowNum
    · rw [if_pos hfile] at hw1
      by_cases hwel : E.rowNum = 0 ∧ y = E.screenRows.tdiv 3
      · rw [if_pos hwel] at hw1
        exact draw_welcome_extends E v w1 hw1
      · rw [if_neg hwel] at hw1
        exact vector_append_extends _ _ _ _ hw1
    · rw [if_neg hfile] at hw1
      obtain ⟨r, _, hr⟩ := Option.bind_eq_some.mp hw1
      obtain ⟨s0, _, hs0⟩ := Option.bind_eq_some.mp hr
      exact vector_append_extends _ _ _ _ hs0
  obtain ⟨t1, ht1⟩ := h1
  obtain ⟨t2, ht2⟩ := vector_append_extends _ _ _ _ hw2
  by_cases hl : y < E.screenRows - 1
  · rw [if_pos hl] at h3
    obtain ⟨t3, ht3⟩ := vector_append_extends _ _ _ _ h3
    exact ⟨t1 ++ t2 ++ t3, by rw [ht3, ht2, ht1]; simp⟩
  · rw [if_neg hl] at h3
    injection h3 with h3
    exact ⟨t1 ++ t2, by rw [← h3, ht2, ht1]; simp⟩

/-- The row loop keeps the bytes already in the buffer. -/
theorem draw_rows_from_extends (E : config) (k : Nat) :
    ∀ (y : Int) (v v1 : List Nat), draw_rows_from E k y v = some v1 → ∃ t, v1 = v ++ t := by
  induction k with
  | zero =>
    intro y v v1 h
    simp only [draw_rows_from] at h
    injection h with h
    exact ⟨[], by rw [← h]; simp⟩
  | succ k ih =>
    intro y v v1 h
    simp only [draw_rows_from] at h
    obtain ⟨w, hw, h2⟩ := Option.bind_eq_some.mp h
    obtain ⟨t1, ht1⟩ := draw_row_extends E y v w hw
    obtain ⟨t2, ht2⟩ := ih (y + 1) w v1 h2
    exact ⟨t1 ++ t2, by rw [ht2, ht1]; simp⟩

/-! ## Building and writing a frame: theorems -/

/-- The frame starts with the two escapes appended before the rows: the six
bytes `ESC [ 2 5 l NUL` and the three bytes `ESC [ H`. -/
theorem refresh_frame_start :
    (vector_append [] (cstr [27, 91, 50, 53, 108]) 6).bind
        (fun v1 => vector_append v1 (cstr [27, 91, 72]) 3)
      = some [27, 91, 50, 53, 108, 0, 27, 91, 72] := by
  decide

/-- With the cursor escape inside the range of `int`, the frame is the two
leading escapes, the rows, the cursor escape `ESC [ r ; c H` and `ESC [ ? 2 5 h`,
and the state is the scrolled one. -/
theorem refresh_frame_eq (E : config)
    (hr : 0 ≤ (scroll E).cy - (scroll E).rowOffset + 1 ∧
      (scroll E).cy - (scroll E).rowOffset + 1 < 2147483648)
    (hc : 0 ≤ (scroll E).cx - (scroll E).colOffset + 1 ∧
      (scroll E).cx - (scroll E).colOffset + 1 < 2147483648) :
    refresh_frame E
      = (draw_rows (scroll E) [27, 91, 50, 53, 108, 0, 27, 91, 72]).map fun v3 =>
          (scroll E, v3 ++ ([27, 91] ++ fmt_d ((scroll E).cy - (scroll E).rowOffset + 1)
            ++ [59] ++ fmt_d ((scroll E).cx - (scroll E).colOffset + 1) ++ [72])
            ++ [27, 91, 63, 50, 53, 104]) := by
  have h1 : vector_append [] (cstr [27, 91, 50, 53, 108]) 6
      = some [27, 91, 50, 53, 108, 0] := by decide
  have h2 : vector_append [27, 91, 50, 53, 108, 0] (cstr [27, 91, 72]) 3
      = some [27, 91, 50, 53, 108, 0, 27, 91, 72] := by decide
  have hshow : ∀ v : List Nat, vector_append v (cstr [27, 91, 63, 50, 53, 104]) 6
      = some (v ++ [27, 91, 63, 50, 53, 104]) :=
    fun v => by rw [vector_append_ok v _ 6 (by decide) (by decide)]; rfl
  unfold refresh_frame
  simp only [h1, h2, Option.some_bind]
  cases hd : draw_rows (scroll E) [27, 91, 50, 53, 108, 0, 27, 91, 72] with
  | none => rfl
  | some v3 =>
    simp only [Option.some_bind, Option.map_some', append_cursor_escape v3 _ _ hr hc, hshow]

/-- Every frame that is built starts with `ESC [ 2 5 l NUL`, then `ESC [ H`, and
ends with `ESC [ ? 2 5 h`. -/
theorem refresh_frame_ends (E E1 : config) (frame : List Nat)
    (h : refresh_frame E = some (E1, frame)) :
    ∃ mid, frame = [27, 91, 50, 53, 108, 0] ++ [27, 91, 72] ++ mid
      ++ [27, 91, 63, 50, 53, 104] := by
  have h1 : vector_append [] (cstr [27, 91, 50, 53, 108]) 6
      = some [27, 91, 50, 53, 108, 0] := by decide
  have h2 : vector_append [27, 91, 50, 53, 108, 0] (cstr [27, 91, 72]) 3
      = some [27, 91, 50, 53, 108, 0, 27, 91, 72] := by decide
  unfold refresh_frame at h
  simp only [h1, h2, Option.some_bind] at h
  obtain ⟨v3, hv3, h3⟩ := Option.bind_eq_some.mp h
  obtain ⟨v4, hv4, h4⟩ := Option.bind_eq_some.mp h3
  obtain ⟨v5, hv5, h5⟩ := Option.map_eq_some'.mp h4
  obtain ⟨t3, ht3⟩ := draw_rows_from_extends _ _ _ _ _ hv3
  obtain ⟨t4, ht4⟩ := vector_append_extends _ _ _ _ hv4
  rw [vector_append_ok v4 _ 6 (by decide) (by decide)] at hv5
  injection hv5 with hv5
  injection h5 with _ h5
  refine ⟨t3 ++ t4, ?_⟩
  rw [← h5, ← hv5, ht4, ht3]
  simp [cstr]

/-- The frame of the empty buffer in a 24x80 window is built, in the state left
by `init`, and has the general shape. -/
theorem refresh_frame_init_24_80 :
    ∃ mid, refresh_frame (init 24 80)
      = some (init 24 80, [27, 91, 50, 53, 108, 0] ++ [27, 91, 72] ++ mid
          ++ [27, 91, 63, 50, 53, 104]) := by
  have hs : scroll (init 24 80) = init 24 80 := by decide
  have hrows := draw_rows_from_empty (init 24 80) rfl (by decide) (by decide) (by decide)
    (init 24 80).screenRows.toNat 0 [27, 91, 50, 53, 108, 0, 27, 91, 72]
  have heq := refresh_frame_eq (init 24 80) (by rw [hs]; decide) (by rw [hs]; decide)
  rw [hs] at heq
  rw [heq, draw_rows]
  have hz : ((0 : Nat) : Int) = 0 := rfl
  rw [hz] at hrows
  rw [hrows]
  refine ⟨(List.range' 0 (init 24 80).screenRows.toNat).flatMap (spec_empty_row (init 24 80))
    ++ ([27, 91] ++ fmt_d ((init 24 80).cy - (init 24 80).rowOffset + 1) ++ [59]
      ++ fmt_d ((init 24 80).cx - (init 24 80).colOffset + 1) ++ [72]), ?_⟩
  simp only [Option.map_some', List.append_assoc, List.cons_append, List.nil_append]

/-- C11: evaluated on the empty buffer in a 24x80 window, the frame starts with
the six bytes `ESC [ 2 5 l NUL`, which are not `ESC [ ? 2 5 l`, followed by
`ESC [ H`, and ends with `ESC [ ? 2 5 h`. -/
theorem refresh_frame_hide_escape_bytes :
    (∃ mid, refresh_frame (init 24 80)
      = some (init 24 80, [27, 91, 50, 53, 108, 0] ++ [27, 91, 72] ++ mid
          ++ [27, 91, 63, 50, 53, 104])) ∧
    (refresh_frame (init 24 80)).map (fun p => p.2.take 6) = some [27, 91, 50, 53, 108, 0] ∧
    (refresh_frame (init 24 80)).map (fun p => p.2.take 6)
      ≠ some [27, 91, 63, 50, 53, 108] := by
  obtain ⟨mid, h⟩ := refresh_frame_init_24_80
  have h6 : (refresh_frame (init 24 80)).map (fun p => p.2.take 6)
      = some [27, 91, 50, 53, 108, 0] := by
    rw [h]
    rfl
  refine ⟨⟨mid, h⟩, h6, ?_⟩
  rw [h6]
  decide

/-- Whenever the frame is built and `write` does not return a negative value,
`refresh_screen` returns, whatever the number of bytes written. -/
theorem refresh_screen_returns (E E1 : config) (frame : List Nat) (w : Int)
    (h : refresh_frame E = some (E1, frame)) (hw : 0 ≤ w) :
    refresh_screen w E = RefreshOutcome.returned E1 frame := by
  simp [refresh_screen, h, not_lt.mpr hw]

/-- C12: evaluated on the empty buffer in a 24x80 window, whose frame has more
than 14 bytes: when `write` returns 14, or 0, `refresh_screen` returns to its
caller; it ends the process when `write` returns -1. -/
theorem refresh_screen_short_write :
    ∃ frame, refresh_frame (init 24 80) = some (init 24 80, frame) ∧
      14 < frame.length ∧
      refresh_screen 14 (init 24 80) = RefreshOutcome.returned (init 24 80) frame ∧
      refresh_screen 0 (init 24 80) = RefreshOutcome.returned (init 24 80) frame ∧
      refresh_screen (-1) (init 24 80) = RefreshOutcome.died := by
  obtain ⟨mid, h⟩ := refresh_frame_init_24_80
  refine ⟨_, h, ?_, refresh_screen_returns _ _ _ 14 h (by decide),
    refresh_screen_returns _ _ _ 0 h (by decide), ?_⟩
  · simp only [List.length_append, List.length_cons, List.length_nil]
    omega
  · simp [refresh_screen, h]

/-- C17: with `screenRows ≥ 1` and `screenCols ≥ 1` (both of type `int`), the row
`r = cy - rowOffset + 1` and the column `c = cx - colOffset + 1`, taken with the
offsets left by `scroll`, satisfy `1 ≤ r ≤ screenRows` and `1 ≤ c ≤ screenCols`;
every frame built by `refresh_screen` holds, after the rows and before the final
`ESC [ ? 2 5 h`, the escape `ESC [ r ; c H` with `r` and `c` in decimal; and the
frame is built for every well-formed state with a cursor and offsets that are not
negative. -/
theorem refresh_screen_cursor_escape (E : config)
    (hsr : 1 ≤ E.screenRows ∧ E.screenRows < 2147483648)
    (hsc : 1 ≤ E.screenCols ∧ E.screenCols < 2147483648) :
    (1 ≤ (scroll E).cy - (scroll E).rowOffset + 1 ∧
      (scroll E).cy - (scroll E).rowOffset + 1 ≤ E.screenRows) ∧
    (1 ≤ (scroll E).cx - (scroll E).colOffset + 1 ∧
      (scroll E).cx - (scroll E).colOffset + 1 ≤ E.screenCols) ∧
    (∀ (E1 : config) (frame : List Nat), refresh_frame E = some (E1, frame) →
      E1 = scroll E ∧
      ∃ rows, frame = [27, 91, 50, 53, 108, 0] ++ [27, 91, 72] ++ rows
        ++ ([27, 91] ++ fmt_d ((scroll E).cy - (scroll E).rowOffset + 1) ++ [59]
          ++ fmt_d ((scroll E).cx - (scroll E).colOffset + 1) ++ [72])
        ++ [27, 91, 63, 50, 53, 104]) ∧
    (bufferOk E → textOk E → 0 ≤ E.cy → 0 ≤ E.cx → 0 ≤ E.rowOffset → 0 ≤ E.colOffset →
      ∃ frame, refresh_frame E = some (scroll E, frame) ∧
        ∀ w : Int, 0 ≤ w → refresh_screen w E = RefreshOutcome.returned (scroll E) frame) ∧
    (∀ n : Nat, fmt_d (n : Int) = (Nat.toDigits 10 n).map Char.toNat) := by
  obtain ⟨hframe, hro, hco⟩ := scroll_spec E
  have hcy : (scroll E).cy = E.cy := by rw [hframe]
  have hcx : (scroll E).cx = E.cx := by rw [hframe]
  have hrows : (scroll E).screenRows = E.screenRows := by rw [hframe]
  have hcols : (scroll E).screenCols = E.screenCols := by rw [hframe]
  have hr : 1 ≤ (scroll E).cy - (scroll E).rowOffset + 1 ∧
      (scroll E).cy - (scroll E).rowOffset + 1 ≤ E.screenRows := by
    rw [hcy, hro]
    omega
  have hc : 1 ≤ (scroll E).cx - (scroll E).colOffset + 1 ∧
      (scroll E).cx - (scroll E).colOffset + 1 ≤ E.screenCols := by
    rw [hcx, hco]
    omega
  have heq := refresh_frame_eq E ⟨by omega, by omega⟩ ⟨by omega, by omega⟩
  refine ⟨hr, hc, ?_, ?_, fmt_d_eq_toDigits⟩
  · intro E1 frame h
    rw [heq] at h
    obtain ⟨v3, hv3, h3⟩ := Option.map_eq_some'.mp h
    obtain ⟨rows, hrows3⟩ := draw_rows_from_extends _ _ _ _ _ hv3
    injection h3 with h3a h3b
    refine ⟨h3a.symm, rows, ?_⟩
    rw [← h3b, hrows3]
    simp only [List.append_assoc, List.cons_append, List.nil_append]
  · intro hb ht hy0 hx0 hro0 hco0
    have hb1 : bufferOk (scroll E) := bufferOk_of_eq E _ hb (by rw [hframe]) (by rw [hframe])
    have ht1 : textOk (scroll E) := by
      unfold textOk at *
      rw [hframe]
      exact ht
    have hnum : (scroll E).rowNum = E.rowNum := by rw [hframe]
    have hro1 : 0 ≤ (scroll E).rowOffset := by
      rw [hro]
      omega
    have hco1 : 0 ≤ (scroll E).colOffset := by
      rw [hco]
      omega
    have hdraw : ∃ v3, draw_rows (scroll E) [27, 91, 50, 53, 108, 0, 27, 91, 72] = some v3 := by
      have hz : ((0 : Nat) : Int) = 0 := rfl
      by_cases h0 : E.rowNum = 0
      · have h := draw_rows_from_empty (scroll E) (by rw [hnum]; exact h0) hro1
          (by rw [hrows]; exact hsr.1) (by rw [hcols]; exact hsc.1)
          (scroll E).screenRows.toNat 0 [27, 91, 50, 53, 108, 0, 27, 91, 72]
        rw [hz] at h
        exact ⟨_, h⟩
      · have hpos : 1 ≤ (scroll E).rowNum := by
          have := hb.1
          omega
        have h := draw_rows_from_text (scroll E) hb1 ht1 hpos hro1 hco1
          (by rw [hcols]; omega) (scroll E).screenRows.toNat 0
          [27, 91, 50, 53, 108, 0, 27, 91, 72]
        rw [hz] at h
        exact ⟨_, h⟩
    obtain ⟨v3, hv3⟩ := hdraw
    have hfr : refresh_frame E = some (scroll E, v3
        ++ ([27, 91] ++ fmt_d ((scroll E).cy - (scroll E).rowOffset + 1) ++ [59]
          ++ fmt_d ((scroll E).cx - (scroll E).colOffset + 1) ++ [72])
        ++ [27, 91, 63, 50, 53, 104]) := by
      rw [heq, hv3]
      rfl
    exact ⟨_, hfr, fun w hw => refresh_screen_returns E _ _ w hfr hw⟩

/-- Witness for C17: the sample state; its cursor escape is `ESC [ 1 ; 3 H`. -/
theorem refresh_screen_cursor_escape_witness :
    ((1 ≤ sampleState.screenRows ∧ sampleState.screenRows < 2147483648) ∧
      (1 ≤ sampleState.screenCols ∧ sampleState.screenCols < 2147483648)) ∧
    (1 ≤ (scroll sampleState).cy - (scroll sampleState).rowOffset + 1 ∧
      (scroll sampleState).cy - (scroll sampleState).rowOffset + 1
        ≤ sampleState.screenRows) ∧
    [27, 91] ++ fmt_d ((scroll sampleState).cy - (scroll sampleState).rowOffset + 1) ++ [59]
        ++ fmt_d ((scroll sampleState).cx - (scroll sampleState).colOffset + 1) ++ [72]
      = [27, 91, 49, 59, 51, 72] :=
  ⟨by decide,
   (refresh_screen_cursor_escape sampleState (by decide) (by decide)).1,
   by decide⟩

/-! ## Command dispatch: the line-length invariant with END_KEY -/

/-- A run of `move_cursor` calls, for any keys and any `cx`, from a state with
`cy` in `0..rowNum`: every call returns, only `cx` and `cy` change, `cy` stays in
`0..rowNum`, and `cx ≤ rowLen` holds at the end if it held at the start or at
least one call was made. -/
theorem move_cursor_seq_within (keys : List Int) :
    ∀ E : config, bufferOk E → 0 ≤ E.cy ∧ E.cy ≤ E.rowNum →
    ∃ E1, move_cursor_seq keys E = some E1 ∧ E1 = { E with cx := E1.cx, cy := E1.cy } ∧
      0 ≤ E1.cy ∧ E1.cy ≤ E.rowNum ∧
      ((keys ≠ [] ∨ ∃ L, rowLen E = some L ∧ E.cx ≤ L) →
        ∃ L, rowLen E1 = some L ∧ E1.cx ≤ L) := by
  induction keys with
  | nil =>
    intro E _ hcy
    refine ⟨E, rfl, rfl, hcy.1, hcy.2, ?_⟩
    intro h
    rcases h with h | h
    · exact absurd rfl h
    · exact h
  | cons k ks ih =>
    intro E hb hcy
    obtain ⟨E1, L, h1, hframe, hy0, hy1, hL, _, hxL, _⟩ := move_cursor_spec k E hb hcy
    have hnum : E1.rowNum = E.rowNum := by rw [hframe]
    obtain ⟨E2, h2, hframe2, hy20, hy21, hP⟩ :=
      ih E1 (bufferOk_of_eq E E1 hb (by rw [hframe]) hnum) ⟨hy0, by rw [hnum]; exact hy1⟩
    refine ⟨E2, ?_, ?_, hy20, by rw [← hnum]; exact hy21, ?_⟩
    · simp [move_cursor_seq, h1, h2]
    · rw [hframe2, hframe]
    · intro _
      exact hP (Or.inr ⟨L, hL, hxL⟩)

/-- One navigation command, END_KEY included, from a state with `cy` in
`0..rowNum`: it returns when `screenRows ≥ 1`, and whenever it returns it has
changed `cx` and `cy` only, kept `cy` in `0..rowNum`, kept `cx` at or below the
larger of `rowLen` and `screenCols - 1`, kept `cx ≤ rowLen` unless it is END_KEY,
and established `cx ≤ rowLen` if it is an arrow key, HOME_KEY, or a page key with
`screenRows ≥ 2`. -/
theorem process_keypress_step (c : Int) (E : config)
    (hc : c = ARROW_UP ∨ c = ARROW_DOWN ∨ c = ARROW_LEFT ∨ c = ARROW_RIGHT ∨
      c = PAGE_UP ∨ c = PAGE_DOWN ∨ c = HOME_KEY ∨ c = END_KEY)
    (hb : bufferOk E) (hcy : 0 ≤ E.cy ∧ E.cy ≤ E.rowNum) :
    (1 ≤ E.screenRows → ∃ E1, process_keypress c E = KeypressOutcome.continues E1) ∧
    ∀ E1, process_keypress c E = KeypressOutcome.continues E1 →
      E1 = { E with cx := E1.cx, cy := E1.cy } ∧ 0 ≤ E1.cy ∧ E1.cy ≤ E.rowNum ∧
      ((∃ L, rowLen E = some L ∧ E.cx ≤ max L (E.screenCols - 1)) →
        ∃ L, rowLen E1 = some L ∧ E1.cx ≤ max L (E1.screenCols - 1)) ∧
      (c ≠ END_KEY → (∃ L, rowLen E = some L ∧ E.cx ≤ L) →
        ∃ L, rowLen E1 = some L ∧ E1.cx ≤ L) ∧
      ((c = ARROW_UP ∨ c = ARROW_DOWN ∨ c = ARROW_LEFT ∨ c = ARROW_RIGHT ∨ c = HOME_KEY ∨
          ((c = PAGE_UP ∨ c = PAGE_DOWN) ∧ 2 ≤ E.screenRows)) →
        ∃ L, rowLen E1 = some L ∧ E1.cx ≤ L) := by
  have weaken : ∀ E1 : config, (∃ L, rowLen E1 = some L ∧ E1.cx ≤ L) →
      ∃ L, rowLen E1 = some L ∧ E1.cx ≤ max L (E1.screenCols - 1) :=
    fun E1 ⟨L, hL, hx⟩ => ⟨L, hL, le_trans hx (le_max_left _ _)⟩
  rcases hc with h | h | h | h | h | h | h | h
  case inr.inr.inr.inr.inr.inr.inl =>
    subst h
    have he : process_keypress HOME_KEY E = KeypressOutcome.continues { E with cx := 0 } := by
      simp [process_keypress, CTRL_KEY_q, HOME_KEY]
    rw [he]
    refine ⟨fun _ => ⟨_, rfl⟩, ?_⟩
    intro E1 h1
    injection h1 with h1
    subst h1
    obtain ⟨L, hL, hL0⟩ := rowLen_defined E hb hcy
    have hP : ∃ L, rowLen { E with cx := 0 } = some L ∧ ({ E with cx := 0 } : config).cx ≤ L :=
      ⟨L, by rw [← hL]; exact rowLen_congr E _ rfl rfl rfl, hL0⟩
    exact ⟨rfl, hcy.1, hcy.2, fun _ => weaken _ hP, fun _ _ => hP, fun _ => hP⟩
  case inr.inr.inr.inr.inr.inr.inr =>
    subst h
    have he : process_keypress END_KEY E
        = KeypressOutcome.continues { E with cx := E.screenCols - 1 } := by
      simp [process_keypress, CTRL_KEY_q, END_KEY, HOME_KEY]
    rw [he]
    refine ⟨fun _ => ⟨_, rfl⟩, ?_⟩
    intro E1 h1
    injection h1 with h1
    subst h1
    obtain ⟨L, hL, _⟩ := rowLen_defined E hb hcy
    refine ⟨rfl, hcy.1, hcy.2, ?_, fun hne => absurd rfl hne, ?_⟩
    · intro _
      exact ⟨L, by rw [← hL]; exact rowLen_congr E _ rfl rfl rfl, le_max_right _ _⟩
    · intro hk
      exfalso
      revert hk
      simp [END_KEY, ARROW_UP, ARROW_DOWN, ARROW_LEFT, ARROW_RIGHT, HOME_KEY, PAGE_UP,
        PAGE_DOWN]
  case inr.inr.inr.inr.inl | inr.inr.inr.inr.inr.inl =>
    rw [process_keypress_page_eq c E (by first | exact Or.inl h | exact Or.inr h)]
    obtain ⟨E2, h2, hframe, hy0, hy1, hP⟩ := move_cursor_seq_within
      (List.replicate (E.screenRows - 1).toNat
        (if c = PAGE_DOWN then ARROW_DOWN else ARROW_UP)) E hb hcy
    refine ⟨fun hr => ⟨E2, by rw [if_pos hr, h2]⟩, ?_⟩
    intro E1 h1
    by_cases hr : 1 ≤ E.screenRows
    · rw [if_pos hr, h2] at h1
      injection h1 with h1
      subst h1
      have hbig : 2 ≤ E.screenRows → ∃ L, rowLen E2 = some L ∧ E2.cx ≤ L := by
        intro h2r
        apply hP
        left
        intro hnil
        have hlen := congrArg List.length hnil
        simp only [List.length_replicate, List.length_nil] at hlen
        omega
      refine ⟨hframe, hy0, hy1, ?_, fun _ hPE => hP (Or.inr hPE), fun hk => ?_⟩
      · intro hQ
        by_cases h2r : 2 ≤ E.screenRows
        · exact weaken _ (hbig h2r)
        · have h0 : (E.screenRows - 1).toNat = 0 := by omega
          rw [h0] at h2
          simp only [List.replicate_zero, move_cursor_seq] at h2
          injection h2 with h2
          rw [← h2]
          exact hQ
      · rcases hk with hk | hk | hk | hk | hk | hk
        · exact absurd hk (by rw [h]; decide)
        · exact absurd hk (by rw [h]; decide)
        · exact absurd hk (by rw [h]; decide)
        · exact absurd hk (by rw [h]; decide)
        · exact absurd hk (by rw [h]; decide)
        · exact hbig hk.2
    · rw [if_neg hr] at h1
      cases h1
  all_goals
    rw [process_keypress_arrow c E (by simp [h])]
    obtain ⟨E2, L, h2, hframe, hy0, hy1, hL, _, hxL, _⟩ := move_cursor_spec c E hb hcy
    rw [h2]
    refine ⟨fun _ => ⟨E2, rfl⟩, ?_⟩
    intro E1 h1
    injection h1 with h1
    subst h1
    exact ⟨hframe, hy0, hy1, fun _ => weaken _ ⟨L, hL, hxL⟩, fun _ _ => ⟨L, hL, hxL⟩,
      fun _ => ⟨L, hL, hxL⟩⟩

/-- A run of commands over a list that is split in two is the run over the first
part followed by the run over the second. -/
theorem process_keys_append (a b : List Int) :
    ∀ E : config, process_keys (a ++ b) E = (process_keys a E).bind (process_keys b) := by
  induction a with
  | nil => intro E; rfl
  | cons c cs ih =>
    intro E
    simp only [List.cons_append, process_keys]
    cases process_keypress c E with
    | continues E1 => exact ih E1
    | exited => rfl
    | invalidAccess => rfl
    | runaway => rfl

/-- A run of navigation commands, END_KEY included, from a state with `cy` in
`0..rowNum`: it returns when `screenRows ≥ 1`, and whenever it returns it has
changed `cx` and `cy` only, kept `cy` in `0..rowNum`, kept `cx` at or below the
larger of `rowLen` and `screenCols - 1`, and kept `cx ≤ rowLen` if END_KEY is not
among the commands. -/
theorem process_keys_step_spec (keys : List Int) :
    ∀ E : config,
    (∀ c ∈ keys, c = ARROW_UP ∨ c = ARROW_DOWN ∨ c = ARROW_LEFT ∨ c = ARROW_RIGHT ∨
      c = PAGE_UP ∨ c = PAGE_DOWN ∨ c = HOME_KEY ∨ c = END_KEY) →
    bufferOk E → 0 ≤ E.cy ∧ E.cy ≤ E.rowNum →
    (1 ≤ E.screenRows → ∃ E1, process_keys keys E = some E1) ∧
    ∀ E1, process_keys keys E = some E1 →
      E1 = { E with cx := E1.cx, cy := E1.cy } ∧ 0 ≤ E1.cy ∧ E1.cy ≤ E.rowNum ∧
      ((∃ L, rowLen E = some L ∧ E.cx ≤ max L (E.screenCols - 1)) →
        ∃ L, rowLen E1 = some L ∧ E1.cx ≤ max L (E1.screenCols - 1)) ∧
      ((∀ c ∈ keys, c ≠ END_KEY) → (∃ L, rowLen E = some L ∧ E.cx ≤ L) →
        ∃ L, rowLen E1 = some L ∧ E1.cx ≤ L) := by
  induction keys with
  | nil =>
    intro E _ _ hcy
    refine ⟨fun _ => ⟨E, rfl⟩, ?_⟩
    intro E1 h1
    injection h1 with h1
    subst h1
    exact ⟨rfl, hcy.1, hcy.2, fun h => h, fun _ h => h⟩
  | cons c cs ih =>
    intro E hkeys hb hcy
    obtain ⟨hret, hstep⟩ := process_keypress_step c E
      (hkeys c (List.mem_cons_self c cs)) hb hcy
    have hrest := fun k hk => hkeys k (List.mem_cons_of_mem c hk)
    constructor
    · intro hr
      obtain ⟨E1, h1⟩ := hret hr
      obtain ⟨hframe, hy0, hy1, _⟩ := hstep E1 h1
      have hnum : E1.rowNum = E.rowNum := by rw [hframe]
      have hrows : E1.screenRows = E.screenRows := by rw [hframe]
      obtain ⟨hret2, _⟩ := ih E1 hrest (bufferOk_of_eq E E1 hb (by rw [hframe]) hnum)
        ⟨hy0, by rw [hnum]; exact hy1⟩
      obtain ⟨E2, h2⟩ := hret2 (by rw [hrows]; exact hr)
      exact ⟨E2, by simp [process_keys, h1, h2]⟩
    · intro E2 h2
      simp only [process_keys] at h2
      cases h1 : process_keypress c E with
      | continues E1 =>
        rw [h1] at h2
        obtain ⟨hframe, hy0, hy1, hQ, hP, _⟩ := hstep E1 h1
        have hnum : E1.rowNum = E.rowNum := by rw [hframe]
        obtain ⟨hframe2, hy20, hy21, hQ2, hP2⟩ :=
          (ih E1 hrest (bufferOk_of_eq E E1 hb (by rw [hframe]) hnum)
            ⟨hy0, by rw [hnum]; exact hy1⟩).2 E2 h2
        refine ⟨by rw [hframe2, hframe], hy20, by rw [← hnum]; exact hy21,
          fun h => hQ2 (hQ h), ?_⟩
        intro hne hPE
        exact hP2 (fun k hk => hne k (List.mem_cons_of_mem c hk))
          (hP (hne c (List.mem_cons_self c cs)) hPE)
      | exited => rw [h1] at h2; cases h2
      | invalidAccess => rw [h1] at h2; cases h2
      | runaway => rw [h1] at h2; cases h2

/-- C8, amended: from an initial state with `cx = 0` and `cy = 0`, for runs of the
navigation commands ARROW_UP/DOWN/LEFT/RIGHT, PAGE_UP, PAGE_DOWN, HOME_KEY and
END_KEY: every run returns when `screenRows ≥ 1`; every state reached has `cx` at
or below the larger of `rowLen` and `screenCols - 1`; it has `cx ≤ rowLen`, the
length of line `cy` or 0 when `cy ≥ rowNum`, when the run holds no END_KEY, and
also when some command of the run is an arrow key, HOME_KEY, or a page key with
`screenRows ≥ 2`, and no END_KEY comes after it.  END_KEY itself sets `cx` to
`screenCols - 1` in every state and changes nothing else. -/
theorem process_keys_cursor_within_line (E : config)
    (hb : bufferOk E) (hx : E.cx = 0) (hy : E.cy = 0) :
    (∀ keys : List Int,
      (∀ c ∈ keys, c = ARROW_UP ∨ c = ARROW_DOWN ∨ c = ARROW_LEFT ∨ c = ARROW_RIGHT ∨
        c = PAGE_UP ∨ c = PAGE_DOWN ∨ c = HOME_KEY ∨ c = END_KEY) →
      (1 ≤ E.screenRows → ∃ E1, process_keys keys E = some E1) ∧
      (∀ E1, process_keys keys E = some E1 →
        ∃ L, rowLen E1 = some L ∧ E1.cx ≤ max L (E1.screenCols - 1)) ∧
      ((∀ c ∈ keys, c ≠ END_KEY) → ∀ E1, process_keys keys E = some E1 →
        ∃ L, rowLen E1 = some L ∧ E1.cx ≤ L)) ∧
    (∀ (pre : List Int) (k : Int) (post : List Int),
      (∀ c ∈ pre, c = ARROW_UP ∨ c = ARROW_DOWN ∨ c = ARROW_LEFT ∨ c = ARROW_RIGHT ∨
        c = PAGE_UP ∨ c = PAGE_DOWN ∨ c = HOME_KEY ∨ c = END_KEY) →
      (k = ARROW_UP ∨ k = ARROW_DOWN ∨ k = ARROW_LEFT ∨ k = ARROW_RIGHT ∨ k = HOME_KEY ∨
        ((k = PAGE_UP ∨ k = PAGE_DOWN) ∧ 2 ≤ E.screenRows)) →
      (∀ c ∈ post, c = ARROW_UP ∨ c = ARROW_DOWN ∨ c = ARROW_LEFT ∨ c = ARROW_RIGHT ∨
        c = PAGE_UP ∨ c = PAGE_DOWN ∨ c = HOME_KEY) →
      ∀ E1, process_keys (pre ++ k :: post) E = some E1 →
        ∃ L, rowLen E1 = some L ∧ E1.cx ≤ L) ∧
    (∀ E2 : config, process_keypress END_KEY E2
      = KeypressOutcome.continues { E2 with cx := E2.screenCols - 1 }) := by
  have hcy : 0 ≤ E.cy ∧ E.cy ≤ E.rowNum := by
    have := hb.1
    omega
  obtain ⟨L, hL, hL0⟩ := rowLen_defined E hb hcy
  have hPE : ∃ L, rowLen E = some L ∧ E.cx ≤ L := ⟨L, hL, by omega⟩
  have hQE : ∃ L, rowLen E = some L ∧ E.cx ≤ max L (E.screenCols - 1) :=
    ⟨L, hL, le_trans (by omega) (le_max_left _ _)⟩
  have nav7 : ∀ c : Int, (c = ARROW_UP ∨ c = ARROW_DOWN ∨ c = ARROW_LEFT ∨ c = ARROW_RIGHT ∨
      c = PAGE_UP ∨ c = PAGE_DOWN ∨ c = HOME_KEY) →
      (c = ARROW_UP ∨ c = ARROW_DOWN ∨ c = ARROW_LEFT ∨ c = ARROW_RIGHT ∨
        c = PAGE_UP ∨ c = PAGE_DOWN ∨ c = HOME_KEY ∨ c = END_KEY) ∧ c ≠ END_KEY := by
    intro c hc
    rcases hc with h | h | h | h | h | h | h <;> subst h <;>
      simp [END_KEY, ARROW_UP, ARROW_DOWN, ARROW_LEFT, ARROW_RIGHT, HOME_KEY, PAGE_UP,
        PAGE_DOWN]
  refine ⟨?_, ?_, ?_⟩
  · intro keys hkeys
    obtain ⟨hret, hres⟩ := process_keys_step_spec keys E hkeys hb hcy
    refine ⟨hret, fun E1 h1 => (hres E1 h1).2.2.2.1 hQE, ?_⟩
    intro hne E1 h1
    exact (hres E1 h1).2.2.2.2 hne hPE
  · intro pre k post hpre hk hpost E1 h1
    rw [process_keys_append] at h1
    obtain ⟨Ea, ha, h2⟩ := Option.bind_eq_some.mp h1
    obtain ⟨hframe, hy0, hy1, _⟩ := (process_keys_step_spec pre E hpre hb hcy).2 Ea ha
    have hnum : Ea.rowNum = E.rowNum := by rw [hframe]
    have hrows : Ea.screenRows = E.screenRows := by rw [hframe]
    have hba : bufferOk Ea := bufferOk_of_eq E Ea hb (by rw [hframe]) hnum
    have hcya : 0 ≤ Ea.cy ∧ Ea.cy ≤ Ea.rowNum := ⟨hy0, by rw [hnum]; exact hy1⟩
    have hk8 : k = ARROW_UP ∨ k = ARROW_DOWN ∨ k = ARROW_LEFT ∨ k = ARROW_RIGHT ∨
        k = PAGE_UP ∨ k = PAGE_DOWN ∨ k = HOME_KEY ∨ k = END_KEY := by
      rcases hk with h | h | h | h | h | ⟨h | h, _⟩ <;> simp [h]
    simp only [process_keys] at h2
    cases hb1 : process_keypress k Ea with
    | continues Eb =>
      rw [hb1] at h2
      obtain ⟨hframeb, hyb0, hyb1, _, _, hclamp⟩ :=
        (process_keypress_step k Ea hk8 hba hcya).2 Eb hb1
      have hPb : ∃ L, rowLen Eb = some L ∧ Eb.cx ≤ L := by
        apply hclamp
        rw [hrows]
        exact hk
      have hnumb : Eb.rowNum = Ea.rowNum := by rw [hframeb]
      exact ((process_keys_step_spec post Eb (fun c hc => (nav7 c (hpost c hc)).1)
        (bufferOk_of_eq Ea Eb hba (by rw [hframeb]) hnumb)
        ⟨hyb0, by rw [hnumb]; exact hyb1⟩).2 E1 h2).2.2.2.2
        (fun c hc => (nav7 c (hpost c hc)).2) hPb
    | exited => rw [hb1] at h2; cases h2
    | invalidAccess => rw [hb1] at h2; cases h2
    | runaway => rw [hb1] at h2; cases h2
  · intro E2
    simp [process_keypress, CTRL_KEY_q, END_KEY, HOME_KEY]

/-- Witness for C8 (amended): END_KEY, then ARROW_DOWN, then PAGE_UP from the top
of the sample buffer. -/
theorem process_keys_cursor_within_line_witness :
    (bufferOk { sampleState with cx := 0 } ∧ ({ sampleState with cx := 0 } : config).cx = 0 ∧
      ({ sampleState with cx := 0 } : config).cy = 0) ∧
    ∀ E1, process_keys ([END_KEY] ++ ARROW_DOWN :: [PAGE_UP]) { sampleState with cx := 0 }
      = some E1 → ∃ L, rowLen E1 = some L ∧ E1.cx ≤ L :=
  ⟨by decide,
   (process_keys_cursor_within_line { sampleState with cx := 0 }
     (by decide) (by decide) (by decide)).2.1 [END_KEY] ARROW_DOWN [PAGE_UP]
     (by decide) (by decide) (by decide)⟩

end Edit
